import Mathlib

/-!
# Verification of the record-linkage engine core (chapinhall/beam)

Shallow embedding of the core data structures and algorithms of the
record-linkage engine, together with proofs and refutations of the frozen
specification claims.

Conventions of the embedding:

* Python (insertion-ordered) dictionaries are association lists
  `List (K × V)`; `dset` keeps the position of an existing key and appends a
  new key at the end, `ddel` removes a key, exactly as Python `dict` does.
* Python sets are lists with membership-guarded insertion (`sadd`); only
  membership facts are ever used, matching the arbitrary iteration order of
  Python sets.
* Python exceptions (`KeyError` from indexing a missing key, `TypeError`
  from calling a non-callable) are modelled with `Option`/`Except`.
* `pandas`/`numpy` float columns become `Option ℚ`: `none` is NaN, and any
  comparison with NaN is false, as in IEEE / numpy semantics.
* SQL conditions evaluate in Kleene three-valued logic (`TV`); a join emits
  a row only when the full condition evaluates to `TV.t`.
-/

namespace RecordLinkage

/-! ## Python dictionary and set primitives -/

variable {K : Type} {V : Type} [DecidableEq K]

/-- Lookup in a Python dictionary (`d[k]` / `k in d`), as an association
list. -/
def dget : List (K × V) → K → Option V
  | [], _ => none
  | (k', v) :: t, k => if k = k' then some v else dget t k

/-- Python `k in d`. -/
def dmem (d : List (K × V)) (k : K) : Bool :=
  (dget d k).isSome

/-- Python `d[k] = v`: replace in place when the key exists (keeping its
position, as Python dicts preserve insertion order), append otherwise. -/
def dset : List (K × V) → K → V → List (K × V)
  | [], k, v => [(k, v)]
  | (k', v') :: t, k, v => if k = k' then (k, v) :: t else (k', v') :: dset t k v

/-- Python `del d[k]` (call sites always guard existence). -/
def ddel : List (K × V) → K → List (K × V)
  | [], _ => []
  | (k', v') :: t, k => if k = k' then ddel t k else (k', v') :: ddel t k

/-- Python `s.add(x)` on a set modelled as a list: no duplicate entries. -/
def sadd {α : Type} [DecidableEq α] (s : List α) (x : α) : List α :=
  if x ∈ s then s else s ++ [x]

/-- Python `s.update(t)` on sets. -/
def supdate {α : Type} [DecidableEq α] (s t : List α) : List α :=
  t.foldl sadd s

/-! ## Python runtime errors -/

/-- The Python exceptions raised by the embedded code paths. -/
inductive PyError : Type
  | typeError
  | keyError
deriving DecidableEq

/-- Applying a Python `dict` object as if it were a function: `dict` objects
are not callable, so this raises `TypeError` unconditionally, whatever the
argument and the dictionary contents. -/
def pyDictCall (_d : List (K × V)) (_x : K) : Except PyError V :=
  Except.error PyError.typeError

/-- Subscripting a Python `dict` (`d[k]`): the stored value, or `KeyError`. -/
def pyDictIndex (d : List (K × V)) (k : K) : Except PyError V :=
  match dget d k with
  | some v => Except.ok v
  | none => Except.error PyError.keyError

end RecordLinkage

namespace RecordLinkage

/-! ## Acceptance evaluation (`accept.py`, `accept_matches`)

`accept_matches` evaluates, for the rows of one pass, the four pluggable
predicates `accept_p{passnum}_{strictness}` (looked up by `getattr` on the
configured `accept_functions` module), OR-ing each level into the next via
`accepted_in_prev_strictness`, and finally drops the rows whose
`match_review` flag is false.  The vectorized dataframe operations act
row-wise, so the embedding works on one row at a time; the pluggable
predicates (arbitrary functions of the row, the masks and the thresholds,
for an arbitrary pass number and configuration) are universally quantified
functions `ρ → Bool`. -/

variable {ρ : Type}

/-- One output row of `accept_matches`: the input row together with the four
acceptance flags added by the strictness loop. -/
structure FlaggedRow (ρ : Type) where
  row : ρ
  match_strict : Bool
  match_moderate : Bool
  match_relaxed : Bool
  match_review : Bool

/-- The strictness cascade of `accept_matches` on one row:
each level is its own predicate OR-ed with `accepted_in_prev_strictness`. -/
def accept_row (fs fm fr fv : ρ → Bool) (r : ρ) : FlaggedRow ρ :=
  let s := fs r
  let m := fm r || s
  let rl := fr r || m
  let rv := fv r || rl
  ⟨r, s, m, rl, rv⟩

/-- `accept_matches`: flag every row of the pass, then keep only the rows
whose `match_review` flag is true
(`df_match = df_match[df_match.loc[this_pass, 'match_review']]`). -/
def accept_matches (fs fm fr fv : ρ → Bool) (rows : List ρ) : List (FlaggedRow ρ) :=
  (rows.map (accept_row fs fm fr fv)).filter (·.match_review)

/-! ## Weights (`match_functions.py`, `calculate_weights`)

`calculate_weights` builds the eval string
`10 ** (tot_pass_cnt - passnum) + c1 + c2 + ...` where `c1, c2, ...` are
ALL columns of the batch dataframe except the five dropped ones
(`indv_id_a`, `indv_id_b`, `idx_a`, `idx_b`, `passnum`).  At that point of
`run_match_parallelized` the remaining columns are the per-comparison score
columns and the four boolean acceptance flags, so the flags are summed as
0/1 alongside the scores.  Before the eval, `.replace(-1, .5)` rewrites the
missing-score sentinel and `.fillna(0)` zeroes the NaN cells. -/

/-- One accepted row as seen by `calculate_weights`: its pass number, its
per-comparison score cells (`none` = NaN, from concatenating batches of
passes with different comparison columns) and its four acceptance flags. -/
structure MatchRow where
  passnum : Nat
  scores : List (Option ℚ)
  match_strict : Bool
  match_moderate : Bool
  match_relaxed : Bool
  match_review : Bool

/-- `.replace(-1, .5).fillna(0)` applied to one score cell. -/
def clamp_score : Option ℚ → ℚ
  | none => 0
  | some x => if x = -1 then 1/2 else x

/-- A Python `bool` used in arithmetic: `True` is 1, `False` is 0. -/
def bool_val (b : Bool) : ℚ :=
  if b then 1 else 0

/-- The summands of the eval string: every non-dropped column of the row,
i.e. the (clamped) score cells followed by the four flag columns. -/
def weight_summands (r : MatchRow) : List ℚ :=
  r.scores.map clamp_score ++
    [bool_val r.match_strict, bool_val r.match_moderate,
     bool_val r.match_relaxed, bool_val r.match_review]

/-- `calculate_weights` for one row of a regular pass:
`10 ** (tot_pass_cnt - passnum)` plus the sum of all non-dropped columns. -/
def calculate_weights (tot_pass_cnt : Nat) (r : MatchRow) : ℚ :=
  (10 : ℚ) ^ ((tot_pass_cnt : ℤ) - (r.passnum : ℤ)) + (weight_summands r).sum

/-- The weight formula as the specification states it (claim C2):
`10^(P - passnum)` plus the sum of the per-comparison scores only, with the
`-1` sentinel replaced by `0.5` and NaN contributing 0.  Written from the
spec's words, for comparison with `calculate_weights`. -/
def spec_weight (tot_pass_cnt : Nat) (r : MatchRow) : ℚ :=
  (10 : ℚ) ^ ((tot_pass_cnt : ℤ) - (r.passnum : ℤ)) + (r.scores.map clamp_score).sum

/-- The contribution of the four boolean flag columns to the eval sum. -/
def flag_count (r : MatchRow) : ℚ :=
  bool_val r.match_strict + bool_val r.match_moderate +
    bool_val r.match_relaxed + bool_val r.match_review

/-- Scores produced by the comparers: every present cell is either the
missing sentinel `-1` or a similarity in `[0, 1]`. -/
def ValidScores (r : MatchRow) : Prop :=
  ∀ s ∈ r.scores, ∀ x : ℚ, s = some x → x = -1 ∨ (0 ≤ x ∧ x ≤ 1)

/-- Concrete row for the claim C2 counterexample: pass 1 of 2, one exact
score, all four flags true. -/
def c2_row : MatchRow :=
  { passnum := 1, scores := [some 1],
    match_strict := true, match_moderate := true,
    match_relaxed := true, match_review := true }

/-- Concrete pass-0 row for the claim C5 witness. -/
def c5_row1 : MatchRow :=
  { passnum := 0, scores := [],
    match_strict := false, match_moderate := false,
    match_relaxed := false, match_review := true }

/-- Concrete pass-1 row for the claim C5 witness. -/
def c5_row2 : MatchRow :=
  { passnum := 1, scores := [some 1, some 1],
    match_strict := true, match_moderate := true,
    match_relaxed := true, match_review := true }

/-! ## The `CompareBmonthBday` comparer (`match_functions.py`)

`_compute_vectorized` starts from the 0/1 indicator of both components
matching, then performs three masked assignments, each guarded by
`sim == 0`: swapped month/day, one-of-two matching, any-component-NaN.
NumPy equality with NaN is false. -/

/-- NumPy elementwise equality on float cells: false when either is NaN. -/
def opt_eq (a b : Option ℚ) : Bool :=
  match a, b with
  | some x, some y => decide (x = y)
  | _, _ => false

/-- `CompareBmonthBday._compute_vectorized` on one candidate row, with the
configured tier scores `swap_month_day`, `either_month_day`,
`missing_value`. -/
def compareBmonthBday (swap_month_day either_month_day missing_value : ℚ)
    (s1_m s1_d s2_m s2_d : Option ℚ) : ℚ :=
  let sim : ℚ := if opt_eq s1_m s2_m = true ∧ opt_eq s1_d s2_d = true then 1 else 0
  let sim : ℚ :=
    if sim = 0 ∧ (opt_eq s1_d s2_m = true ∧ opt_eq s1_m s2_d = true) then swap_month_day else sim
  let sim : ℚ :=
    if sim = 0 ∧ (opt_eq s1_m s2_m = true ∨ opt_eq s1_d s2_d = true) then either_month_day else sim
  let sim : ℚ :=
    if sim = 0 ∧ (s1_m.isNone ∨ s1_d.isNone ∨ s2_m.isNone ∨ s2_d.isNone)
    then missing_value else sim
  sim

/-- The BmonthBday decision chain as the specification states it (claim C7):
1.0 if both match; otherwise `swap_month_day` if swapped; otherwise
`either_month_day` if exactly one of month/day matches; otherwise
`missing_value` if any input is NaN; otherwise 0.  Written from the spec's
words, for comparison with `compareBmonthBday`. -/
def spec_bmonthbday (swap_month_day either_month_day missing_value : ℚ)
    (s1_m s1_d s2_m s2_d : Option ℚ) : ℚ :=
  if opt_eq s1_m s2_m = true ∧ opt_eq s1_d s2_d = true then 1
  else if opt_eq s1_d s2_m = true ∧ opt_eq s1_m s2_d = true then swap_month_day
  else if xor (opt_eq s1_m s2_m) (opt_eq s1_d s2_d) = true then either_month_day
  else if s1_m.isNone ∨ s1_d.isNone ∨ s2_m.isNone ∨ s2_d.isNone then missing_value
  else 0

/-! ## 121 resolution (`postprocess.py`, `one_to_one_matching` / `write_to_csv`)

`one_to_one_matching` folds over the CSV rows (all fields are strings; the
weight comparison `weight == idx_match_a_to_b[a][1]` is string equality),
maintaining the two dictionaries `idx_match_a_to_b` and `idx_match_b_to_a`
whose values are 4-element lists `[partner, weight, deleted, passnum]`.
The embedding covers the `strictness is None` path (every row considered),
which is the path taken for the `review` crosswalk; stricter levels only
filter the input rows.  Dictionary indexing that Python would turn into a
`KeyError` is modelled with `Option`. -/

/-- One input row of the pairwise results file, as read by `csv.DictReader`. -/
structure PairRow where
  indv_id_a : String
  indv_id_b : String
  weight : String
  passnum : String

/-- One dictionary value of `one_to_one_matching`:
the list `[partner_id, weight, deleted, passnum]`. -/
structure MatchEntry where
  partner : String
  weight : String
  deleted : Bool
  passnum : String
deriving DecidableEq

/-- The body of the `one_to_one_matching` row loop for one CSV line. -/
def one_to_one_step (a2b b2a : List (String × MatchEntry)) (line : PairRow) :
    Option (List (String × MatchEntry) × List (String × MatchEntry)) :=
  let a := line.indv_id_a
  let b := line.indv_id_b
  let w := line.weight
  let sameWeightA : Bool :=
    match dget a2b a with
    | some e => decide (w = e.weight)
    | none => false
  let sameWeightB : Bool :=
    match dget b2a b with
    | some e => decide (w = e.weight)
    | none => false
  if sameWeightA = true ∨ sameWeightB = true then
    -- weight is the same as a previous match
    (match dget a2b a with
     | some ea =>
       if b ≠ ea.partner then
         -- delete the prior assignment of `a` and, when it points back,
         -- the reverse entry of the displaced partner
         let a2b1 := dset a2b a { ea with deleted := true }
         match dget b2a ea.partner with
         | some ed =>
           some (a2b1,
             if ed.partner = a then dset b2a ea.partner { ed with deleted := true } else b2a)
         | none => none
       else
         some (a2b, b2a)
     | none =>
       some (dset a2b a ⟨b, w, true, line.passnum⟩, b2a)).bind
      fun st =>
        let a2b1 := st.1
        let b2a1 := st.2
        match dget b2a1 b with
        | some eb =>
          if a ≠ eb.partner then
            match dget a2b1 eb.partner with
            | some ed =>
              let a2b2 :=
                if ed.partner = b then dset a2b1 eb.partner { ed with deleted := true } else a2b1
              some (a2b2, dset b2a1 b { eb with deleted := true })
            | none => none
          else
            some (a2b1, b2a1)
        | none =>
          if (dget b2a1 a).isSome then
            some (a2b1, b2a1)
          else
            some (a2b1, dset b2a1 b ⟨a, w, true, line.passnum⟩)
  else
    -- match should be added when both sides are still free
    if (dget a2b a).isNone ∧ (dget b2a b).isNone then
      some (dset a2b a ⟨b, w, false, line.passnum⟩,
            dset b2a b ⟨a, w, false, line.passnum⟩)
    else
      some (a2b, b2a)

/-- The row loop of `one_to_one_matching`. -/
def one_to_one_go (a2b b2a : List (String × MatchEntry)) :
    List PairRow → Option (List (String × MatchEntry))
  | [] => some a2b
  | line :: rest =>
    match one_to_one_step a2b b2a line with
    | some (a2b1, b2a1) => one_to_one_go a2b1 b2a1 rest
    | none => none

/-- `one_to_one_matching` (strictness `None`): returns `idx_match_a_to_b`. -/
def one_to_one_matching (rows : List PairRow) : Option (List (String × MatchEntry)) :=
  one_to_one_go [] [] rows

/-- The `121` branch of `write_to_csv` (with `key_flag = 0`): one crosswalk
row `(indv_id_a, indv_id_b, passnum)` per non-deleted dictionary entry. -/
def write_to_csv_121 (entries : List (String × MatchEntry)) :
    List (String × String × String) :=
  entries.filterMap fun p =>
    if p.2.deleted then none else some (p.1, p.2.partner, p.2.passnum)

/-! ## Blocking (`block_functions.py`) in SQL three-valued logic

The blocker builds SQL join conditions as strings and runs them in
Postgres, so the embedding evaluates the generated condition in Kleene
three-valued logic: comparing a NULL yields UNKNOWN, `x IS NOT NULL` is
always boolean, and a joined row is emitted only when the whole condition
evaluates to true (`TV.t`).  A blocking pass is a list of column pairs
(one name per side — `run_blocking_pass` resolves logical names through
`vars_a`/`vars_b` and reverses side b for `_inv` passes, which is exactly a
list of pairs); a record is a function from column names to `Option String`
(NULL = `none`). -/

/-- SQL three-valued truth values. -/
inductive TV : Type
  | t
  | f
  | u
deriving DecidableEq

/-- SQL `AND`. -/
def TV.and3 : TV → TV → TV
  | .t, .t => .t
  | .f, _ => .f
  | _, .f => .f
  | _, _ => .u

/-- SQL `OR`. -/
def TV.or3 : TV → TV → TV
  | .t, _ => .t
  | _, .t => .t
  | .f, .f => .f
  | _, _ => .u

/-- SQL `NOT`. -/
def TV.not3 : TV → TV
  | .t => .f
  | .f => .t
  | .u => .u

/-- Embed a definite boolean. -/
def TV.ofBool (b : Bool) : TV :=
  if b then .t else .f

/-- SQL `x = y` on nullable text. -/
def sql_eq (a b : Option String) : TV :=
  match a, b with
  | some x, some y => TV.ofBool (x == y)
  | _, _ => .u

/-- SQL `x != ''` on nullable text. -/
def sql_ne_empty (a : Option String) : TV :=
  match a with
  | some x => TV.ofBool (x != "")
  | none => .u

/-- SQL `x IS NOT NULL`. -/
def sql_is_not_null (a : Option String) : TV :=
  TV.ofBool a.isSome

/-- SQL `x != y` on nullable text. -/
def sql_ne (a b : Option String) : TV :=
  (sql_eq a b).not3

/-- A record row of a source table: column name to nullable text value. -/
def Rec : Type := String → Option String

/-- A blocking pass: the list of `(column_a, column_b)` equijoin pairs. -/
def Pass : Type := List (String × String)

/-- One conjunct of `get_pass_join_cond`:
`(a.v = b.v AND a.v != '' AND a.v IS NOT NULL)`. -/
def field_join_cond (ra rb : Rec) (fp : String × String) : TV :=
  (sql_eq (ra fp.1) (rb fp.2)).and3
    ((sql_ne_empty (ra fp.1)).and3 (sql_is_not_null (ra fp.1)))

/-- `get_pass_join_cond`: the `' AND '.join` of the per-field conditions. -/
def get_pass_join_cond (p : Pass) (ra rb : Rec) : TV :=
  (p.map (field_join_cond ra rb)).foldr TV.and3 TV.t

/-- `exclude_past_join_cond`: when the accumulated past-condition string is
nonempty, conjoin `AND NOT (past disjunction)`. -/
def exclude_past_join_cond (cond : TV) (past : List TV) : TV :=
  match past with
  | [] => cond
  | _ => cond.and3 (past.foldr TV.or3 TV.f).not3

/-- The driver's accumulation of `past_join_cond_str` over the pass list:
`update_past_join_cond` appends each executed pass's condition, and a pass
with an empty blocking list returns `''`, resetting the accumulator. -/
def past_after (cfg : List Pass) : List Pass :=
  cfg.foldl (fun past p => if p.isEmpty then [] else past ++ [p]) []

/-- The accumulated past passes seen by pass `i`. -/
def past_before (cfg : List Pass) (i : Nat) : List Pass :=
  past_after (cfg.take i)

/-- The full join condition executed for pass `i` of the configuration on a
given record pair (an empty pass is skipped and emits nothing). -/
def pass_full_cond (cfg : List Pass) (i : Nat) (ra rb : Rec) : TV :=
  match cfg.get? i with
  | none => TV.f
  | some p =>
    if p.isEmpty then TV.f
    else
      exclude_past_join_cond (get_pass_join_cond p ra rb)
        ((past_before cfg i).map fun q => get_pass_join_cond q ra rb)

/-- Pass `i` emits the candidate pair `(ra, rb)`. -/
def emitted_in (cfg : List Pass) (i : Nat) (ra rb : Rec) : Prop :=
  pass_full_cond cfg i ra rb = TV.t

/-! ### The dedup join condition (claim C6)

For dedup, `find_pass_candidates` appends `AND a.idx < b.idx AND
a.indv_id != b.indv_id` to the join condition.  Every column of the
imported tables is created as `TEXT` (`import_prepped_data.py`), so
`a.idx < b.idx` is the lexicographic text comparison of the decimal strings
of the dense integer indices; the candidate table then exports
`a.idx::integer`. -/

/-- A source-table row for dedup blocking: the dense integer index (stored
in the database as its decimal text), the individual id, and the remaining
columns. -/
structure DedupRec where
  idx : Nat
  indv_id : Option String
  fields : Rec

/-- SQL `<` on non-null text columns: codepoint-lexicographic comparison,
i.e. the lexicographic order of the character lists (the same order as
Lean's `String` order, by `String.lt_iff_toList_lt`). -/
def sql_text_lt (x y : String) : TV :=
  TV.ofBool (decide (x.data < y.data))

/-- The dedup join condition of `find_pass_candidates`: the pass equijoin
(and past-pass exclusion), plus `a.idx < b.idx` on the TEXT idx column and
`a.indv_id != b.indv_id`. -/
def dedup_join_cond (p : Pass) (past : List TV) (a b : DedupRec) : TV :=
  ((exclude_past_join_cond (get_pass_join_cond p a.fields b.fields) past).and3
    (sql_text_lt (Nat.repr a.idx) (Nat.repr b.idx))).and3
    (sql_ne a.indv_id b.indv_id)

/-- A dedup pass emits the candidate pair `(a, b)`. -/
def emitted_dedup (p : Pass) (past : List TV) (a b : DedupRec) : Prop :=
  dedup_join_cond p past a b = TV.t

/-! ## Union-Find (`union_find.py`)

The four dictionaries of the structure are ordered dicts; `count` is the
statistics counter incremented at the end of the add operations.  Items and
groups are arbitrary hashables, so the embedding is generic over both types.
Indexing a missing key (`KeyError`) makes an operation return `none`. -/

/-- `UnionFind.__init__`. -/
structure UnionFind (I G : Type) where
  group_to_item_set : List (G × List I) := []
  item_to_group : List (I × G) := []
  group_to_top_group : List (G × G) := []
  top_group_to_merged_groups : List (G × List G) := []
  count : Nat := 1

/-- A fresh `UnionFind()`. -/
def UnionFind.init (I G : Type) : UnionFind I G := {}

/-- `UnionFind.find` applies `self.item_to_group` as a function instead of
subscripting it; a Python `dict` is not callable, so the call raises
`TypeError` for every argument, including items present in the dictionary. -/
def UnionFind.find {I G : Type} (uf : UnionFind I G) (item : I) : Except PyError G :=
  pyDictCall uf.item_to_group item

variable {I G : Type} [DecidableEq I] [DecidableEq G]

/-- `UnionFind.union(group_a, group_b)`, statement by statement:
early returns for equal groups and already-recorded merges; resolve the two
top groups; merge `top_b`'s item set into `top_a`'s and delete it
(`KeyError`, i.e. `none`, when a top has no item set); repoint
`group_b`/`top_b` and every group previously merged into `top_b`; transfer
the merged-groups bookkeeping; relabel the moved items. -/
def UnionFind.union (uf : UnionFind I G) (group_a group_b : G) :
    Option (UnionFind I G) :=
  if group_a = group_b then some uf
  else if dget uf.group_to_top_group group_a = some group_b then some uf
  else if dget uf.group_to_top_group group_b = some group_a then some uf
  else
    let top_a := (dget uf.group_to_top_group group_a).getD group_a
    let top_b := (dget uf.group_to_top_group group_b).getD group_b
    match dget uf.group_to_item_set top_b with
    | none => none
    | some group_b_set =>
      match dget uf.group_to_item_set top_a with
      | none => none
      | some top_a_set =>
        let gis1 := ddel (dset uf.group_to_item_set top_a (supdate top_a_set group_b_set)) top_b
        let gtt1 := dset (dset uf.group_to_top_group group_b top_a) top_b top_a
        let tgtm1 :=
          match dget uf.top_group_to_merged_groups top_a with
          | some s => dset uf.top_group_to_merged_groups top_a (sadd (sadd s group_b) top_b)
          | none => dset uf.top_group_to_merged_groups top_a (sadd [group_b] top_b)
        let tgtm2 :=
          match dget tgtm1 top_b with
          | some merged_b =>
            match dget tgtm1 top_a with
            | some merged_a => dset tgtm1 top_a (supdate merged_a merged_b)
            | none => tgtm1
          | none => tgtm1
        let redirected := (dget tgtm2 top_b).getD []
        let gtt2 := redirected.foldl (fun m g => dset m g top_a) gtt1
        let tgtm3 := if dmem tgtm2 top_b then ddel tgtm2 top_b else tgtm2
        let itg1 := group_b_set.foldl (fun m i => dset m i top_a) uf.item_to_group
        some { group_to_item_set := gis1, item_to_group := itg1,
               group_to_top_group := gtt2, top_group_to_merged_groups := tgtm3,
               count := uf.count }

/-- `UnionFind.add_item_dedup(group, item)`: the `if`/`elif` chain of the
source, with `self.count += 1` on every path that does not hit the early
`return`. -/
def UnionFind.add_item_dedup (uf : UnionFind I G) (group : G) (item : I) :
    Option (UnionFind I G) :=
  match dget uf.item_to_group item with
  | some item_group =>
    if group = item_group then
      -- item already in this group: early return (count untouched)
      some uf
    else if dmem uf.group_to_item_set group then
      (uf.union item_group group).map fun uf1 => { uf1 with count := uf1.count + 1 }
    else
      match dget uf.group_to_top_group group with
      | some top_group =>
        if top_group ≠ item_group then
          (uf.union top_group item_group).map fun uf1 => { uf1 with count := uf1.count + 1 }
        else
          some { uf with count := uf.count + 1 }
      | none =>
        -- group needs to be created, then merged
        let uf1 := { uf with group_to_item_set := dset uf.group_to_item_set group [item] }
        (uf1.union item_group group).map fun uf2 => { uf2 with count := uf2.count + 1 }
  | none =>
    match dget uf.group_to_top_group group with
    | some top_group =>
      match dget uf.group_to_item_set top_group with
      | none => none
      | some s =>
        some { uf with
          group_to_item_set := dset uf.group_to_item_set top_group (sadd s item),
          item_to_group := dset uf.item_to_group item top_group,
          count := uf.count + 1 }
    | none =>
      match dget uf.group_to_item_set group with
      | some s =>
        some { uf with
          group_to_item_set := dset uf.group_to_item_set group (sadd s item),
          item_to_group := dset uf.item_to_group item group,
          count := uf.count + 1 }
      | none =>
        some { uf with
          group_to_item_set := dset uf.group_to_item_set group [item],
          item_to_group := dset uf.item_to_group item group,
          count := uf.count + 1 }

/-- `UnionFind.add_item_M2M(group, item, passnum)`: the source unpacks
`a, b = item` and forms the stored tuple `item = (a, b, passnum)`; tuple
formation is specific to the item type, so the embedding receives the
already-formed tuple `item` alongside its two components `a`, `b`.  The
statements follow the source line by line; dictionary indexing after the
internal unions reads the current state, and a missing key is `none`. -/
def UnionFind.add_item_M2M (uf : UnionFind I G) (group : G) (a b item : I) :
    Option (UnionFind I G) :=
  let uf0 := { uf with
    group_to_item_set := dset uf.group_to_item_set group [item],
    item_to_group := dset uf.item_to_group item group }
  match dget uf0.item_to_group a with
  | some grp =>
    match dget uf0.item_to_group b with
    | none =>
      -- the second value has not been seen: add value and item to group
      (uf0.union grp group).bind fun uf1 =>
        let uf2 := { uf1 with item_to_group := dset uf1.item_to_group b grp }
        match dget uf2.group_to_item_set grp with
        | none => none
        | some s =>
          let uf3 := { uf2 with group_to_item_set := dset uf2.group_to_item_set grp (sadd s item) }
          match dget uf3.group_to_item_set grp with
          | none => none
          | some s2 =>
            some { uf3 with
              group_to_item_set := dset uf3.group_to_item_set grp (sadd s2 b),
              count := uf3.count + 1 }
    | some grpb =>
      if grp ≠ grpb then
        -- the two items are in different groups: combine groups
        (uf0.union grp group).bind fun uf1 =>
          (uf1.union grp grpb).bind fun uf2 =>
            match dget uf2.item_to_group a with
            | none => none
            | some ga =>
              let uf3 := { uf2 with item_to_group := dset uf2.item_to_group b ga }
              match dget uf3.item_to_group a with
              | none => none
              | some ga2 =>
                match dget uf3.group_to_item_set ga2 with
                | none => none
                | some s =>
                  some { uf3 with
                    group_to_item_set := dset uf3.group_to_item_set ga2 (sadd s item),
                    count := uf3.count + 1 }
      else
        -- the two items are already in the same group: add item to group
        (uf0.union grp group).bind fun uf1 =>
          match dget uf1.group_to_item_set grp with
          | none => none
          | some s =>
            some { uf1 with
              group_to_item_set := dset uf1.group_to_item_set grp (sadd s item),
              count := uf1.count + 1 }
  | none =>
    match dget uf0.item_to_group b with
    | some grpb =>
      -- second item has been seen (first was not)
      (uf0.union grpb group).bind fun uf1 =>
        let uf2 := { uf1 with item_to_group := dset uf1.item_to_group a grpb }
        match dget uf2.group_to_item_set grpb with
        | none => none
        | some s =>
          let uf3 := { uf2 with group_to_item_set := dset uf2.group_to_item_set grpb (sadd s item) }
          match dget uf3.group_to_item_set grpb with
          | none => none
          | some s2 =>
            some { uf3 with
              group_to_item_set := dset uf3.group_to_item_set grpb (sadd s2 a),
              count := uf3.count + 1 }
    | none =>
      -- neither item has been seen yet: add both to group
      let uf1 := { uf0 with group_to_top_group := dset uf0.group_to_top_group group group }
      let uf2 := { uf1 with
        item_to_group := dset (dset uf1.item_to_group a group) b group }
      match dget uf2.group_to_item_set group with
      | none => none
      | some s =>
        let uf3 := { uf2 with group_to_item_set := dset uf2.group_to_item_set group (sadd s a) }
        match dget uf3.group_to_item_set group with
        | none => none
        | some s2 =>
          some { uf3 with
            group_to_item_set := dset uf3.group_to_item_set group (sadd s2 b),
            count := uf3.count + 1 }

/-! ### Operation sequences and the structure invariants (claim C8) -/

/-- One UnionFind operation of a run. -/
inductive UFOp (I G : Type) : Type
  | add_item_dedup (group : G) (item : I)
  | add_item_M2M (group : G) (a b item : I)
  | union (group_a group_b : G)

/-- Apply one operation. -/
def applyUFOp (uf : UnionFind I G) : UFOp I G → Option (UnionFind I G)
  | .add_item_dedup g i => uf.add_item_dedup g i
  | .add_item_M2M g a b item => uf.add_item_M2M g a b item
  | .union g1 g2 => uf.union g1 g2

/-- Run a sequence of operations. -/
def runUFOps (uf : UnionFind I G) : List (UFOp I G) → Option (UnionFind I G)
  | [] => some uf
  | op :: rest =>
    match applyUFOp uf op with
    | some uf1 => runUFOps uf1 rest
    | none => none

/-- The canonical top of a group name (path already compressed at insertion
time, so one lookup). -/
def UnionFind.resolveTop (uf : UnionFind I G) (g : G) : G :=
  (dget uf.group_to_top_group g).getD g

/-- A group name known to the structure: canonical or aliased. -/
def UnionFind.knownGroup (uf : UnionFind I G) (g : G) : Bool :=
  dmem uf.group_to_item_set g || dmem uf.group_to_top_group g

/-- Claim C8 invariant 1: every item recorded in `item_to_group` is a member
of its group's item set. -/
def Inv1 (uf : UnionFind I G) : Prop :=
  ∀ i g, dget uf.item_to_group i = some g →
    ∃ s, dget uf.group_to_item_set g = some s ∧ i ∈ s

/-- Claim C8 invariant 2: every alias in `group_to_top_group` maps to a
canonical (un-deleted) group. -/
def Inv2 (uf : UnionFind I G) : Prop :=
  ∀ g c, dget uf.group_to_top_group g = some c → dmem uf.group_to_item_set c = true

/-- Claim C8 invariant 3: no item belongs to the item sets of two distinct
canonical groups. -/
def Inv3 (uf : UnionFind I G) : Prop :=
  ∀ i g1 g2 s1 s2, dget uf.group_to_item_set g1 = some s1 →
    dget uf.group_to_item_set g2 = some s2 → i ∈ s1 → i ∈ s2 → g1 = g2

/-- The three invariants asserted by claim C8. -/
def UFInvariants (uf : UnionFind I G) : Prop :=
  Inv1 uf ∧ Inv2 uf ∧ Inv3 uf

/-- Strengthened inductive invariant: members of an item set are mapped back
to that set's group. -/
def Inv4 (uf : UnionFind I G) : Prop :=
  ∀ g s i, dget uf.group_to_item_set g = some s → i ∈ s →
    dget uf.item_to_group i = some g

/-- Strengthened inductive invariant: a canonical group's only possible
alias entry is the self alias (written by `add_item_M2M`). -/
def Inv5 (uf : UnionFind I G) : Prop :=
  ∀ g, dmem uf.group_to_item_set g = true →
    ∀ c, dget uf.group_to_top_group g = some c → c = g

/-- Strengthened inductive invariant: every recorded merged group is an
alias of the canonical group it is recorded under. -/
def Inv6 (uf : UnionFind I G) : Prop :=
  ∀ c s g, dget uf.top_group_to_merged_groups c = some s → g ∈ s →
    dget uf.group_to_top_group g = some c

/-- Strengthened inductive invariant: every non-self alias is recorded in
its canonical group's merged set. -/
def Inv7 (uf : UnionFind I G) : Prop :=
  ∀ g c, dget uf.group_to_top_group g = some c →
    g = c ∨ ∃ s, dget uf.top_group_to_merged_groups c = some s ∧ g ∈ s

/-- The full inductive invariant. -/
def StrongInv (uf : UnionFind I G) : Prop :=
  Inv1 uf ∧ Inv2 uf ∧ Inv4 uf ∧ Inv5 uf ∧ Inv6 uf ∧ Inv7 uf

/-- Validity of one operation in the current state, as the amended claim C8
requires: `add_item_dedup` is unrestricted; `add_item_M2M` must use a fresh
group name and a freshly formed tuple item distinct from its two component
items (as `add_csv` does, with one new `rowid` per row); `union` must be
applied to known groups with distinct canonical tops. -/
def validUFOp (uf : UnionFind I G) : UFOp I G → Bool
  | .add_item_dedup _ _ => true
  | .add_item_M2M g a b item =>
    !dmem uf.group_to_item_set g && !dmem uf.group_to_top_group g &&
      !(dget uf.item_to_group item).isSome && !(decide (item = a)) && !(decide (item = b))
  | .union g1 g2 =>
    uf.knownGroup g1 && uf.knownGroup g2 &&
      !(decide (uf.resolveTop g1 = uf.resolveTop g2))

/-- Validity of a whole operation sequence (each step valid in the state it
runs in). -/
def validUFOps (uf : UnionFind I G) : List (UFOp I G) → Bool
  | [] => true
  | op :: rest =>
    validUFOp uf op &&
      match applyUFOp uf op with
      | some uf1 => validUFOps uf1 rest
      | none => true

/-! ## Dedup resolution (`postprocess.py`, `mtom_or_dedup_matching` and the
dedup branch of `write_to_csv`)

`add_csv` (dedup, strictness `None`) adds both ids of each accepted row
under the row's `rowid` group and increments `rowid` per row.
`mtom_or_dedup_matching` then walks the distinct ids of the source table,
calling `add_item_dedup` with a fresh `rowid` for each, and returns
`group_to_item_set`.  The dedup branch of `write_to_csv` writes one
`(orig_id, CH_id)` row for every item of every group, the `CH_id` being the
group's position in the dict.  Ids are generic (`I` with decidable
equality); groups are the `Nat` row counter. -/

/-- The dedup loop of `UnionFind.add_csv`: for each row, add both ids under
the current `rowid`, then increment it. -/
def add_csv_dedup : UnionFind I Nat → List (I × I) → Nat →
    Option (UnionFind I Nat × Nat)
  | uf, [], rowid => some (uf, rowid)
  | uf, (ida, idb) :: rest, rowid =>
    match uf.add_item_dedup rowid ida with
    | none => none
    | some uf1 =>
      match uf1.add_item_dedup rowid idb with
      | none => none
      | some uf2 => add_csv_dedup uf2 rest (rowid + 1)

/-- The singleton loop of `mtom_or_dedup_matching` over the distinct ids of
the source table, one fresh `rowid` per id. -/
def add_table_ids : UnionFind I Nat → List I → Nat → Option (UnionFind I Nat)
  | uf, [], _ => some uf
  | uf, id :: rest, rowid =>
    match uf.add_item_dedup rowid id with
    | none => none
    | some uf1 => add_table_ids uf1 rest (rowid + 1)

/-- `mtom_or_dedup_matching` for a dedup match with a configuration: consume
the accepted pairs, then give every distinct source-table id its own fresh
row group, and return `group_to_item_set`. -/
def mtom_or_dedup_matching (pairs : List (I × I)) (table_ids : List I) :
    Option (List (Nat × List I)) :=
  match add_csv_dedup (UnionFind.init I Nat) pairs 0 with
  | none => none
  | some (uf, rowid) =>
    match add_table_ids uf table_ids rowid with
    | none => none
    | some uf2 => some uf2.group_to_item_set

/-- The dedup branch of `write_to_csv`: for the `i`-th group of the dict,
write one `(orig_id, CH_id)` row per item, with `CH_id = i`. -/
def write_to_csv_dedup (groups : List (Nat × List I)) : List (I × Nat) :=
  (groups.enum.map fun p => p.2.2.map fun item => (item, p.1)).flatten

/-- The dedup crosswalk written by `postprocess.py`. -/
def crosswalk_dedup (pairs : List (I × I)) (table_ids : List I) :
    Option (List (I × Nat)) :=
  (mtom_or_dedup_matching pairs table_ids).map write_to_csv_dedup

/-- All group keys used so far (canonical or aliased) lie below the current
row counter, so a fresh `rowid` never collides with an existing group. -/
def GroupBound (uf : UnionFind I Nat) (n : Nat) : Prop :=
  ∀ g, n ≤ g →
    dget uf.group_to_item_set g = none ∧ dget uf.group_to_top_group g = none

/-! ## Concrete inputs for the counterexamples -/

/-- M2M union-find items: a plain id (namespaced numeric id, e.g. `a_1`) or
a stored tuple `(a, b, passnum)`. -/
inductive MItem : Type
  | id (n : Nat)
  | tup (a b p : Nat)
deriving DecidableEq

/-- Claim C8 counterexample operations: two `add_item_M2M` calls reusing the
same group name `0` (in Python: `add_item_M2M(0, ("1","2"), 0)` then
`add_item_M2M(0, ("3","4"), 0)` on a fresh `UnionFind`). -/
def c8_ops : List (UFOp MItem Nat) :=
  [UFOp.add_item_M2M 0 (MItem.id 1) (MItem.id 2) (MItem.tup 1 2 0),
   UFOp.add_item_M2M 0 (MItem.id 3) (MItem.id 4) (MItem.tup 3 4 0)]

/-- The state produced by running `c8_ops`: the second call overwrote group
0's item set, stranding the items of the first call in `item_to_group`. -/
def c8_state : UnionFind MItem Nat :=
  { group_to_item_set := [(0, [MItem.tup 3 4 0, MItem.id 3, MItem.id 4])],
    item_to_group := [(MItem.tup 1 2 0, 0), (MItem.id 1, 0), (MItem.id 2, 0),
      (MItem.tup 3 4 0, 0), (MItem.id 3, 0), (MItem.id 4, 0)],
    group_to_top_group := [(0, 0)],
    top_group_to_merged_groups := [],
    count := 3 }

/-- A valid operation sequence for the amended claim C8: two items added to
group 0, one to group 1, then the two groups merged. -/
def c8w_ops : List (UFOp MItem Nat) :=
  [UFOp.add_item_dedup 0 (MItem.id 1), UFOp.add_item_dedup 0 (MItem.id 2),
   UFOp.add_item_dedup 1 (MItem.id 3), UFOp.union 0 1]

/-- The state produced by running `c8w_ops` on a fresh structure. -/
def c8w_state : UnionFind MItem Nat :=
  { group_to_item_set := [(0, [MItem.id 1, MItem.id 2, MItem.id 3])],
    item_to_group := [(MItem.id 1, 0), (MItem.id 2, 0), (MItem.id 3, 0)],
    group_to_top_group := [(1, 0)],
    top_group_to_merged_groups := [(0, [1])],
    count := 4 }

/-- Claim C3 counterexample configuration: pass 0 blocks on column `v`,
pass 1 on column `w`. -/
def c3_cfg : List Pass := [[("v", "v")], [("w", "w")]]

/-- The pass-1 predicate of `c3_cfg`. -/
def c3_pass1 : Pass := [("w", "w")]

/-- Claim C3 counterexample left record: `v = 'X'`, `w = 'Y'`. -/
def c3_ra : Rec := fun f =>
  if f = "v" then some "X" else if f = "w" then some "Y" else none

/-- Claim C3 counterexample right record: `v` is NULL, `w = 'Y'`. -/
def c3_rb : Rec := fun f =>
  if f = "v" then none else if f = "w" then some "Y" else none

/-- Claim C6 counterexample pass: block on the soundex column `xf`. -/
def c6_pass : Pass := [("xf", "xf")]

/-- Claim C6 counterexample record with dense index 10. -/
def c6_a : DedupRec :=
  { idx := 10, indv_id := some "A",
    fields := fun f => if f = "xf" then some "S100" else none }

/-- Claim C6 counterexample record with dense index 2. -/
def c6_b : DedupRec :=
  { idx := 2, indv_id := some "B",
    fields := fun f => if f = "xf" then some "S100" else none }

/-- Claim C6 witness record with dense index 1. -/
def c6w_a : DedupRec :=
  { idx := 1, indv_id := some "A",
    fields := fun f => if f = "xf" then some "S100" else none }

/-- Claim C6 witness record with dense index 2. -/
def c6w_b : DedupRec :=
  { idx := 2, indv_id := some "B",
    fields := fun f => if f = "xf" then some "S100" else none }

end RecordLinkage

/-!
# Theorems
-/

namespace RecordLinkage

/-! ## Dictionary and set lemmas -/

section DictLemmas

variable {K : Type} {V : Type} [DecidableEq K]

@[simp]
theorem dget_nil (k : K) : dget ([] : List (K × V)) k = none := rfl

theorem dget_cons (k' : K) (v : V) (t : List (K × V)) (k : K) :
    dget ((k', v) :: t) k = if k = k' then some v else dget t k := rfl

@[simp]
theorem dget_dset (d : List (K × V)) (k : K) (v : V) (k' : K) :
    dget (dset d k v) k' = if k' = k then some v else dget d k' := by
  induction d with
  | nil => by_cases h : k' = k <;> simp [dset, dget_cons, h]
  | cons hd tl ih =>
    obtain ⟨k0, v0⟩ := hd
    by_cases h0 : k = k0
    · subst h0
      by_cases h : k' = k <;> simp [dset, dget_cons, h]
    · by_cases h : k' = k
      · subst h
        simp [dset, h0, dget_cons, ih, Ne.symm h0]
      · simp [dset, h0, dget_cons, ih, h]

@[simp]
theorem dget_ddel (d : List (K × V)) (k : K) (k' : K) :
    dget (ddel d k) k' = if k' = k then none else dget d k' := by
  induction d with
  | nil => by_cases h : k' = k <;> simp [ddel, h]
  | cons hd tl ih =>
    obtain ⟨k0, v0⟩ := hd
    show dget (if k = k0 then ddel tl k else (k0, v0) :: ddel tl k) k' = _
    by_cases h0 : k = k0
    · rw [if_pos h0, ih]
      by_cases h : k' = k
      · rw [if_pos h, if_pos h]
      · rw [if_neg h, if_neg h, dget_cons, if_neg (h0 ▸ h)]
    · rw [if_neg h0, dget_cons]
      by_cases h : k' = k0
      · rw [if_pos h, if_neg (fun hk => h0 (hk.symm.trans h)), dget_cons, if_pos h]
      · rw [if_neg h, ih, dget_cons, if_neg h]

theorem dget_foldl_dset_const {A : Type} [DecidableEq A] (l : List A)
    (d : List (A × V)) (c : V) (k : A) :
    dget (l.foldl (fun m g => dset m g c) d) k =
      if k ∈ l then some c else dget d k := by
  induction l generalizing d with
  | nil => simp
  | cons hd tl ih =>
    by_cases h : k ∈ tl
    · simp [List.foldl_cons, ih, h]
    · by_cases h2 : k = hd
      · subst h2
        simp [List.foldl_cons, ih, h]
      · simp [List.foldl_cons, ih, h, h2]

theorem dget_some_mem {d : List (K × V)} {k : K} {v : V}
    (h : dget d k = some v) : (k, v) ∈ d := by
  induction d with
  | nil => simp [dget] at h
  | cons hd tl ih =>
    obtain ⟨k0, v0⟩ := hd
    rw [dget_cons] at h
    by_cases h0 : k = k0
    · simp [h0] at h
      simp [h0, h]
    · simp [h0] at h
      exact List.mem_cons_of_mem _ (ih h)

theorem dmem_iff_dget {d : List (K × V)} {k : K} :
    dmem d k = true ↔ ∃ v, dget d k = some v := by
  simp [dmem, Option.isSome_iff_exists]

@[simp]
theorem mem_sadd {α : Type} [DecidableEq α] (s : List α) (x y : α) :
    y ∈ sadd s x ↔ y ∈ s ∨ y = x := by
  by_cases h : x ∈ s
  · simp only [sadd, if_pos h]
    constructor
    · exact Or.inl
    · rintro (hy | rfl)
      · exact hy
      · exact h
  · simp [sadd, if_neg h]

@[simp]
theorem sadd_nil {α : Type} [DecidableEq α] (x : α) : sadd [] x = [x] := rfl

theorem sadd_mem_self {α : Type} [DecidableEq α] {s : List α} {x : α}
    (h : x ∈ s) : sadd s x = s := if_pos h

theorem supdate_singleton {α : Type} [DecidableEq α] (s : List α) (x : α) :
    supdate s [x] = sadd s x := rfl

theorem dset_same_pointwise {d : List (K × V)} {k : K} {v : V}
    (h : dget d k = some v) (x : K) : dget (dset d k v) x = dget d x := by
  rw [dget_dset]
  by_cases hx : x = k
  · rw [if_pos hx, hx, h]
  · rw [if_neg hx]

@[simp]
theorem supdate_nil {α : Type} [DecidableEq α] (s : List α) : supdate s [] = s := rfl

@[simp]
theorem mem_supdate {α : Type} [DecidableEq α] (s t : List α) (y : α) :
    y ∈ supdate s t ↔ y ∈ s ∨ y ∈ t := by
  induction t generalizing s with
  | nil => simp [supdate]
  | cons hd tl ih =>
    show y ∈ supdate (sadd s hd) tl ↔ _
    rw [ih]
    simp only [mem_sadd, List.mem_cons]
    tauto

end DictLemmas

/-! ## Claim C10: `UnionFind.find` always raises `TypeError` -/

/-- C10.  For every `UnionFind` instance and every argument, `find` raises
`TypeError` instead of returning a group name — including for items that
were previously added — because it applies the `item_to_group` dictionary
as a function instead of subscripting it. -/
theorem unionfind_find_raises_typeerror {I G : Type} (uf : UnionFind I G) (item : I) :
    uf.find item = Except.error PyError.typeError :=
  rfl

/-! ## Claim C1: acceptance flags are monotone, only review-true rows kept -/

/-- C1.  For every candidate row evaluated by `accept_matches` (any pass
number and configuration, i.e. any four acceptance predicates), the four
flags are monotone — `match_strict ⇒ match_moderate ⇒ match_relaxed ⇒
match_review` — and every row of the returned dataframe has `match_review`
true (rows failing review are removed before the result is returned). -/
theorem accept_matches_monotone_and_review {ρ : Type}
    (fs fm fr fv : ρ → Bool) (rows : List ρ) :
    (∀ r ∈ rows,
      ((accept_row fs fm fr fv r).match_strict = true →
        (accept_row fs fm fr fv r).match_moderate = true) ∧
      ((accept_row fs fm fr fv r).match_moderate = true →
        (accept_row fs fm fr fv r).match_relaxed = true) ∧
      ((accept_row fs fm fr fv r).match_relaxed = true →
        (accept_row fs fm fr fv r).match_review = true)) ∧
    (∀ x ∈ accept_matches fs fm fr fv rows, x.match_review = true) := by
  constructor
  · intro r _
    refine ⟨?_, ?_, ?_⟩ <;> simp [accept_row] <;> tauto
  · intro x hx
    simp only [accept_matches, List.mem_filter] at hx
    exact hx.2

/-- Witness for C1 at a concrete input. -/
theorem accept_matches_monotone_and_review_witness :
    ((accept_row (fun _ : Nat => true) (fun _ => false) (fun _ => false)
        (fun _ => false) 0).match_strict = true →
      (accept_row (fun _ : Nat => true) (fun _ => false) (fun _ => false)
        (fun _ => false) 0).match_moderate = true) ∧
    (∀ x ∈ accept_matches (fun _ : Nat => true) (fun _ => false) (fun _ => false)
        (fun _ => false) [0], x.match_review = true) :=
  ⟨((accept_matches_monotone_and_review (fun _ : Nat => true) (fun _ => false)
      (fun _ => false) (fun _ => false) [0]).1 0 (by simp)).1,
   (accept_matches_monotone_and_review (fun _ : Nat => true) (fun _ => false)
      (fun _ => false) (fun _ => false) [0]).2⟩

/-! ## Claim C2: the weight formula (corrected — the flag columns also sum) -/

/-- C2 counterexample.  For the concrete accepted row `c2_row` (pass 1 of 2,
a single score of 1, all four flags true), `calculate_weights` does not
equal the specification's formula `10^(P - passnum) + Σ clamp(score)`:
the eval string also sums the four boolean flag columns, giving 15, not 11. -/
theorem calculate_weights_counterexample :
    calculate_weights 2 c2_row ≠ spec_weight 2 c2_row := by
  norm_num [calculate_weights, spec_weight, weight_summands, clamp_score,
    bool_val, c2_row]

/-- C2 amended.  For every accepted row of a regular pass, the weight equals
`10^(P - passnum)` plus the clamped score sum (`-1 ↦ 0.5`, NaN `↦ 0`) plus
the number of true acceptance flags, which is between 1 and 4 because
`match_review` is true on every persisted row. -/
theorem calculate_weights_eq_spec_weight_add_flags (P : Nat) (r : MatchRow)
    (h : r.match_review = true) :
    calculate_weights P r = spec_weight P r + flag_count r ∧
      1 ≤ flag_count r ∧ flag_count r ≤ 4 := by
  refine ⟨?_, ?_, ?_⟩
  · simp only [calculate_weights, spec_weight, weight_summands, flag_count,
      List.sum_append]
    simp [List.sum_cons]
    ring
  · cases hs : r.match_strict <;> cases hm : r.match_moderate <;>
      cases hr : r.match_relaxed <;>
      simp [flag_count, bool_val, hs, hm, hr, h] <;> norm_num
  · cases hs : r.match_strict <;> cases hm : r.match_moderate <;>
      cases hr : r.match_relaxed <;>
      simp [flag_count, bool_val, hs, hm, hr, h] <;> norm_num

/-- Witness for the amended C2 at the concrete row `c2_row`. -/
theorem calculate_weights_eq_spec_weight_add_flags_witness :
    calculate_weights 2 c2_row = spec_weight 2 c2_row + flag_count c2_row ∧
      1 ≤ flag_count c2_row ∧ flag_count c2_row ≤ 4 :=
  calculate_weights_eq_spec_weight_add_flags 2 c2_row rfl

/-! ## Claim C7: the BmonthBday comparer (corrected — zero tier scores
allow later masked assignments to re-fire) -/

theorem opt_eq_iff {a b : Option ℚ} :
    opt_eq a b = true ↔ ∃ x, a = some x ∧ b = some x := by
  cases a <;> cases b <;> simp [opt_eq]
  exact eq_comm

theorem opt_eq_isSome {a b : Option ℚ} (h : opt_eq a b = true) :
    a.isSome = true ∧ b.isSome = true := by
  obtain ⟨x, rfl, rfl⟩ := opt_eq_iff.mp h
  simp

theorem opt_eq_isNone_false {a b : Option ℚ} (h : opt_eq a b = true) :
    a.isNone = false ∧ b.isNone = false := by
  obtain ⟨x, rfl, rfl⟩ := opt_eq_iff.mp h
  simp

/-- A swapped quadruple that also matches on month or day matches on both. -/
theorem swap_and_single_gives_both {s1_m s1_d s2_m s2_d : Option ℚ}
    (hdm : opt_eq s1_d s2_m = true) (hmd : opt_eq s1_m s2_d = true)
    (hor : opt_eq s1_m s2_m = true ∨ opt_eq s1_d s2_d = true) :
    opt_eq s1_m s2_m = true ∧ opt_eq s1_d s2_d = true := by
  obtain ⟨x, hd1, hm2⟩ := opt_eq_iff.mp hdm
  obtain ⟨y, hm1, hd2⟩ := opt_eq_iff.mp hmd
  rcases hor with hmm | hdd
  · obtain ⟨z, hm1', hm2'⟩ := opt_eq_iff.mp hmm
    rw [hm1] at hm1'
    rw [hm2] at hm2'
    injection hm1' with hy
    injection hm2' with hx
    refine ⟨hmm, opt_eq_iff.mpr ⟨x, hd1, ?_⟩⟩
    rw [hd2, hy, ← hx]
  · obtain ⟨z, hd1', hd2'⟩ := opt_eq_iff.mp hdd
    rw [hd1] at hd1'
    rw [hd2] at hd2'
    injection hd1' with hx
    injection hd2' with hy
    refine ⟨opt_eq_iff.mpr ⟨y, hm1, ?_⟩, hdd⟩
    rw [hm2, hx, ← hy]

/-- C7 counterexample.  With `either_month_day = 0` configured
(`swap_month_day = 0.8`, `missing_value = 0.5`) and the quadruple
`(bmonth_a, bday_a, bmonth_b, bday_b) = (1, NaN, 1, 2)` — exactly one of
month/day matches — the code falls through to `missing_value` (0.5), while
the claim's decision chain returns `either_month_day` (0). -/
theorem compareBmonthBday_counterexample :
    compareBmonthBday (8/10) 0 (1/2) (some 1) none (some 1) (some 2) = 1/2 ∧
      spec_bmonthbday (8/10) 0 (1/2) (some 1) none (some 1) (some 2) = 0 := by
  constructor <;> norm_num [compareBmonthBday, spec_bmonthbday, opt_eq]

/-- C7 amended.  Whenever the configured `either_month_day` score is nonzero
(each masked assignment re-checks `sim == 0`, so a zero tier value lets a
later tier overwrite it; the repository default is 0.6), the comparer
computes exactly the claim's decision chain: 1.0 if both match, else
`swap_month_day` if swapped, else `either_month_day` if exactly one of
month/day matches, else `missing_value` if any input is NaN, else 0. -/
theorem compareBmonthBday_eq_spec (swap_month_day either_month_day missing_value : ℚ)
    (h : either_month_day ≠ 0) (s1_m s1_d s2_m s2_d : Option ℚ) :
    compareBmonthBday swap_month_day either_month_day missing_value s1_m s1_d s2_m s2_d =
      spec_bmonthbday swap_month_day either_month_day missing_value s1_m s1_d s2_m s2_d := by
  unfold compareBmonthBday spec_bmonthbday
  cases hmm : opt_eq s1_m s2_m <;> cases hdd : opt_eq s1_d s2_d <;>
    cases hdm : opt_eq s1_d s2_m <;> cases hmd : opt_eq s1_m s2_d
  · simp [hmm, hdd, hdm, hmd, h]
  · simp [hmm, hdd, hdm, hmd, h]
  · simp [hmm, hdd, hdm, hmd, h]
  · -- genuinely swapped: the one-match and NaN tiers can never re-fire
    obtain ⟨hn1, hn2⟩ := opt_eq_isNone_false hdm
    obtain ⟨hn3, hn4⟩ := opt_eq_isNone_false hmd
    simp [hmm, hdd, hdm, hmd, hn1, hn2, hn3, hn4]
  · simp [hmm, hdd, hdm, hmd, h]
  · simp [hmm, hdd, hdm, hmd, h]
  · simp [hmm, hdd, hdm, hmd, h]
  · exact absurd ((swap_and_single_gives_both hdm hmd (Or.inr hdd)).1) (by simp [hmm])
  · simp [hmm, hdd, hdm, hmd, h]
  · simp [hmm, hdd, hdm, hmd, h]
  · simp [hmm, hdd, hdm, hmd, h]
  · exact absurd ((swap_and_single_gives_both hdm hmd (Or.inl hmm)).2) (by simp [hdd])
  · simp [hmm, hdd, hdm, hmd, h]
  · simp [hmm, hdd, hdm, hmd, h]
  · simp [hmm, hdd, hdm, hmd, h]
  · simp [hmm, hdd, hdm, hmd, h]

/-- Witness for the amended C7 at a concrete input (default scores, a
swapped month/day pair). -/
theorem compareBmonthBday_eq_spec_witness :
    compareBmonthBday (8/10) (6/10) (1/2) (some 3) (some 7) (some 7) (some 3) =
      spec_bmonthbday (8/10) (6/10) (1/2) (some 3) (some 7) (some 7) (some 3) :=
  compareBmonthBday_eq_spec (8/10) (6/10) (1/2) (by norm_num) _ _ _ _

/-! ## Claim C3: single-pass assignment of blocking candidates
(corrected — SQL three-valued logic can drop a pair from every pass) -/

theorem TV.and3_eq_t {a b : TV} : a.and3 b = TV.t ↔ a = TV.t ∧ b = TV.t := by
  cases a <;> cases b <;> simp [TV.and3]

theorem TV.and3_f_right (a : TV) : a.and3 TV.f = TV.f := by
  cases a <;> rfl

theorem TV.or3_t_left (x : TV) : TV.t.or3 x = TV.t := by
  cases x <;> rfl

theorem TV.or3_t_right (x : TV) : x.or3 TV.t = TV.t := by
  cases x <;> rfl

theorem foldr_or3_eq_t_of_mem {l : List TV} (h : TV.t ∈ l) :
    l.foldr TV.or3 TV.f = TV.t := by
  induction l with
  | nil => simp at h
  | cons hd tl ih =>
    rcases List.mem_cons.mp h with rfl | hmem
    · rw [List.foldr_cons, TV.or3_t_left]
    · rw [List.foldr_cons, ih hmem, TV.or3_t_right]

theorem foldr_or3_eq_f {l : List TV} (h : ∀ x ∈ l, x = TV.f) :
    l.foldr TV.or3 TV.f = TV.f := by
  induction l with
  | nil => rfl
  | cons hd tl ih =>
    rw [List.foldr_cons, ih (fun x hx => h x (List.mem_cons_of_mem _ hx)),
      h hd (List.mem_cons_self _ _)]
    rfl

theorem past_after_eq_self {cfg : List Pass} (hne : ∀ p ∈ cfg, p ≠ []) :
    past_after cfg = cfg := by
  have key : ∀ (l : List Pass) (acc : List Pass), (∀ p ∈ l, p ≠ []) →
      l.foldl (fun past p => if p.isEmpty then [] else past ++ [p]) acc = acc ++ l := by
    intro l
    induction l with
    | nil => intro acc _; simp
    | cons hd tl ih =>
      intro acc hl
      have hhd : ¬ hd.isEmpty := by
        simp only [List.isEmpty_iff]
        exact hl hd (List.mem_cons_self _ _)
      rw [List.foldl_cons, if_neg hhd, ih _ (fun p hp => hl p (List.mem_cons_of_mem _ hp))]
      simp
  exact (key cfg [] hne).trans (by simp)

/-- Unfolding of `pass_full_cond` when pass `i` exists. -/
theorem pass_full_cond_some {cfg : List Pass} {i : Nat} {p : Pass} (ra rb : Rec)
    (hget : cfg.get? i = some p) :
    pass_full_cond cfg i ra rb =
      if p.isEmpty then TV.f
      else
        exclude_past_join_cond (get_pass_join_cond p ra rb)
          ((past_before cfg i).map fun q => get_pass_join_cond q ra rb) := by
  unfold pass_full_cond
  rw [hget]

/-- The full condition of an executed pass forces its own equijoin
predicate to be true. -/
theorem emitted_in_cond {cfg : List Pass} {i : Nat} {ra rb : Rec} {p : Pass}
    (hget : cfg.get? i = some p) (h : emitted_in cfg i ra rb) :
    get_pass_join_cond p ra rb = TV.t := by
  unfold emitted_in at h
  rw [pass_full_cond_some ra rb hget] at h
  by_cases hp : p.isEmpty
  · rw [if_pos hp] at h
    exact absurd h (by simp)
  · rw [if_neg hp] at h
    unfold exclude_past_join_cond at h
    rcases hpast : (past_before cfg i).map (fun q => get_pass_join_cond q ra rb) with _ | ⟨c, cs⟩
    · rw [hpast] at h
      exact h
    · rw [hpast] at h
      exact (TV.and3_eq_t.mp h).1

/-- C3 amended.  When every configured pass has a nonempty blocking list
(an empty pass resets the accumulated exclusion string), no record pair is
emitted by two different passes; and a pair is emitted by the earliest pass
whose predicate it satisfies provided every earlier pass's predicate
evaluates to a definite false on it.  (Without that proviso the claim
fails: a NULL on one side makes an earlier predicate UNKNOWN in SQL
three-valued logic, and `AND NOT (UNKNOWN)` filters the pair out of every
later pass, so a pair satisfying some pass's predicate can be emitted
nowhere — see the counterexample.) -/
theorem blocking_single_pass (cfg : List Pass) (hne : ∀ p ∈ cfg, p ≠ [])
    (ra rb : Rec) :
    (∀ i j, emitted_in cfg i ra rb → emitted_in cfg j ra rb → i = j) ∧
    (∀ i pi, cfg.get? i = some pi → get_pass_join_cond pi ra rb = TV.t →
      (∀ j pj, j < i → cfg.get? j = some pj → get_pass_join_cond pj ra rb = TV.f) →
      emitted_in cfg i ra rb) := by
  have hpast : ∀ i, past_before cfg i = cfg.take i := by
    intro i
    unfold past_before
    exact past_after_eq_self fun p hp => hne p (List.take_subset i cfg hp)
  constructor
  · -- no pair is emitted by two different passes
    have key : ∀ i j, j < i → emitted_in cfg i ra rb → emitted_in cfg j ra rb → False := by
      intro i j hji hi hj
      rcases hgi : cfg.get? i with _ | pi
      · unfold emitted_in pass_full_cond at hi
        rw [hgi] at hi
        exact absurd hi (by simp)
      rcases hgj : cfg.get? j with _ | pj
      · unfold emitted_in pass_full_cond at hj
        rw [hgj] at hj
        exact absurd hj (by simp)
      have hcondj : get_pass_join_cond pj ra rb = TV.t := emitted_in_cond hgj hj
      have hmem : pj ∈ cfg.take i := by
        have : (cfg.take i).get? j = some pj := by
          rw [List.get?_take hji]
          exact hgj
        exact List.get?_mem this
      have hmemt : TV.t ∈ (past_before cfg i).map fun q => get_pass_join_cond q ra rb := by
        rw [hpast i]
        exact List.mem_map.mpr ⟨pj, hmem, hcondj⟩
      unfold emitted_in at hi
      rw [pass_full_cond_some ra rb hgi] at hi
      by_cases hpi : pi.isEmpty
      · rw [if_pos hpi] at hi
        exact absurd hi (by simp)
      rw [if_neg hpi] at hi
      unfold exclude_past_join_cond at hi
      rcases hp : (past_before cfg i).map (fun q => get_pass_join_cond q ra rb) with _ | ⟨c, cs⟩
      · rw [hp] at hmemt
        simp at hmemt
      rw [hp] at hi hmemt
      rw [foldr_or3_eq_t_of_mem hmemt] at hi
      rw [show TV.not3 TV.t = TV.f from rfl, TV.and3_f_right] at hi
      exact absurd hi (by simp)
    intro i j hi hj
    rcases Nat.lt_trichotomy i j with h | h | h
    · exact absurd (key j i h hj hi) not_false
    · exact h
    · exact absurd (key i j h hi hj) not_false
  · -- earliest definite pass emits
    intro i pi hgi hcond hprev
    unfold emitted_in
    rw [pass_full_cond_some ra rb hgi]
    have hpine : ¬ pi.isEmpty := by
      simp only [List.isEmpty_iff]
      exact hne pi (List.get?_mem hgi)
    rw [if_neg hpine]
    unfold exclude_past_join_cond
    rcases hp : (past_before cfg i).map (fun q => get_pass_join_cond q ra rb) with _ | ⟨c, cs⟩
    · exact hcond
    · have hallf : ∀ x ∈ (past_before cfg i).map (fun q => get_pass_join_cond q ra rb),
          x = TV.f := by
        intro x hx
        rcases List.mem_map.mp hx with ⟨q, hq, rfl⟩
        rw [hpast i] at hq
        rcases List.mem_iff_get?.mp hq with ⟨j, hj⟩
        have hji : j < i := by
          by_contra hc
          have hlen : (cfg.take i).length ≤ j :=
            le_trans (List.length_take_le i cfg) (by omega)
          rw [List.get?_eq_none.mpr hlen] at hj
          exact absurd hj (by simp)
        have hget : cfg.get? j = some q := by
          rw [← List.get?_take hji]
          exact hj
        exact hprev j q hji hget
      rw [hp] at hallf
      rw [foldr_or3_eq_f hallf]
      rw [show TV.not3 TV.f = TV.t from rfl]
      rw [hcond]
      rfl

/-- C3 counterexample.  With passes `[v]` then `[w]` and the records
`a = {v: 'X', w: 'Y'}`, `b = {v: NULL, w: 'Y'}`, the pair satisfies pass 1's
predicate but pass 0's predicate evaluates to UNKNOWN, so the pair is
emitted by neither pass 0 nor pass 1 — it is not emitted by the earliest
satisfying pass (and so not by exactly one pass). -/
theorem blocking_counterexample :
    get_pass_join_cond c3_pass1 c3_ra c3_rb = TV.t ∧
      pass_full_cond c3_cfg 0 c3_ra c3_rb ≠ TV.t ∧
      pass_full_cond c3_cfg 1 c3_ra c3_rb ≠ TV.t := by
  refine ⟨by decide, by decide, by decide⟩

/-- Witness for the amended C3 at a concrete input: a one-pass
configuration emits the matching pair in pass 0. -/
theorem blocking_single_pass_witness : emitted_in [c3_pass1] 0 c3_ra c3_rb :=
  (blocking_single_pass [c3_pass1] (by intro p hp; simp at hp; simp [hp, c3_pass1])
      c3_ra c3_rb).2 0 c3_pass1 rfl (by decide)
    (fun j pj hj _ => absurd hj (Nat.not_lt_zero j))

/-! ## Union-Find invariant machinery (claims C8 and C9) -/

section UnionFindInv

variable {I G : Type} [DecidableEq I] [DecidableEq G]

/-- Pointwise equality of two UnionFind states (their four dictionaries
agree on every key). -/
def UFEquiv (u v : UnionFind I G) : Prop :=
  (∀ x, dget u.group_to_item_set x = dget v.group_to_item_set x) ∧
  (∀ i, dget u.item_to_group i = dget v.item_to_group i) ∧
  (∀ g, dget u.group_to_top_group g = dget v.group_to_top_group g) ∧
  (∀ c, dget u.top_group_to_merged_groups c = dget v.top_group_to_merged_groups c)

theorem strong_inv_of_equiv {u v : UnionFind I G} (he : UFEquiv u v)
    (h : StrongInv u) : StrongInv v := by
  obtain ⟨e1, e2, e3, e4⟩ := he
  obtain ⟨h1, h2, h4, h5, h6, h7⟩ := h
  refine ⟨?_, ?_, ?_, ?_, ?_, ?_⟩
  · intro i g hg
    obtain ⟨s, hs, hm⟩ := h1 i g ((e2 i).symm ▸ hg)
    exact ⟨s, (e1 g) ▸ hs, hm⟩
  · intro g c hc
    have := h2 g c ((e3 g).symm ▸ hc)
    unfold dmem at this ⊢
    rw [← e1 c]
    exact this
  · intro g s i hs hm
    rw [← e2 i]
    exact h4 g s i ((e1 g).symm ▸ hs) hm
  · intro g hg c hc
    refine h5 g ?_ c ((e3 g).symm ▸ hc)
    unfold dmem at hg ⊢
    rw [e1 g]
    exact hg
  · intro c s g hc hm
    rw [← e3 g]
    exact h6 c s g ((e4 c).symm ▸ hc) hm
  · intro g c hc
    rcases h7 g c ((e3 g).symm ▸ hc) with h | ⟨s, hs, hm⟩
    · exact Or.inl h
    · exact Or.inr ⟨s, (e4 c) ▸ hs, hm⟩

/-- Characterization of a successful `union` along the main path: the four
dictionaries of the result, pointwise. -/
theorem union_char {uf : UnionFind I G} {ga gb : G} {sa sb : List I}
    (hne : ga ≠ gb)
    (hg1 : dget uf.group_to_top_group ga ≠ some gb)
    (hg2 : dget uf.group_to_top_group gb ≠ some ga)
    (htop : uf.resolveTop ga ≠ uf.resolveTop gb)
    (hsa : dget uf.group_to_item_set (uf.resolveTop ga) = some sa)
    (hsb : dget uf.group_to_item_set (uf.resolveTop gb) = some sb) :
    ∃ uf', uf.union ga gb = some uf' ∧
      uf'.count = uf.count ∧
      (∀ x, dget uf'.group_to_item_set x =
        if x = uf.resolveTop gb then none
        else if x = uf.resolveTop ga then some (supdate sa sb)
        else dget uf.group_to_item_set x) ∧
      (∀ i, dget uf'.item_to_group i =
        if i ∈ sb then some (uf.resolveTop ga) else dget uf.item_to_group i) ∧
      (∀ g, dget uf'.group_to_top_group g =
        if g ∈ (dget uf.top_group_to_merged_groups (uf.resolveTop gb)).getD [] ∨
            g = uf.resolveTop gb ∨ g = gb
        then some (uf.resolveTop ga) else dget uf.group_to_top_group g) ∧
      (∀ c, dget uf'.top_group_to_merged_groups c =
        if c = uf.resolveTop gb then none
        else if c = uf.resolveTop ga then
          some (supdate
            (sadd (sadd ((dget uf.top_group_to_merged_groups (uf.resolveTop ga)).getD []) gb)
              (uf.resolveTop gb))
            ((dget uf.top_group_to_merged_groups (uf.resolveTop gb)).getD []))
        else dget uf.top_group_to_merged_groups c) := by
  have hsa' : dget uf.group_to_item_set ((dget uf.group_to_top_group ga).getD ga) = some sa := hsa
  have hsb' : dget uf.group_to_item_set ((dget uf.group_to_top_group gb).getD gb) = some sb := hsb
  have hTba : ((dget uf.group_to_top_group gb).getD gb) ≠
      ((dget uf.group_to_top_group ga).getD ga) := Ne.symm htop
  simp only [UnionFind.union, if_neg hne, if_neg hg1, if_neg hg2, hsa', hsb']
  refine ⟨_, rfl, rfl, ?_, ?_, ?_, ?_⟩
  · intro x
    simp only [UnionFind.resolveTop, dget_ddel, dget_dset]
  · intro i
    simp only [UnionFind.resolveTop, dget_foldl_dset_const]
  · intro g
    rcases htga : dget uf.top_group_to_merged_groups
        ((dget uf.group_to_top_group ga).getD ga) with _ | sA <;>
      rcases htgb : dget uf.top_group_to_merged_groups
          ((dget uf.group_to_top_group gb).getD gb) with _ | sB <;>
      simp only [UnionFind.resolveTop, htga, htgb, dget_dset, dget_ddel,
        dget_foldl_dset_const, hTba, if_false, if_true, eq_self_iff_true,
        sadd_nil, Option.getD_some, Option.getD_none] <;>
      split_ifs <;> first | rfl | tauto
  · intro c
    rcases htga : dget uf.top_group_to_merged_groups
        ((dget uf.group_to_top_group ga).getD ga) with _ | sA <;>
      rcases htgb : dget uf.top_group_to_merged_groups
          ((dget uf.group_to_top_group gb).getD gb) with _ | sB <;>
      simp only [UnionFind.resolveTop, htga, htgb, dget_dset, dget_ddel,
        dget_foldl_dset_const, hTba, if_false, if_true, eq_self_iff_true,
        sadd_nil, supdate_nil, Option.getD_some, Option.getD_none, dmem] <;>
      split_ifs <;> first | rfl | tauto | simp_all

theorem resolveTop_of_canonical {uf : UnionFind I G} (h5 : Inv5 uf) {g : G}
    (hg : dmem uf.group_to_item_set g = true) : uf.resolveTop g = g := by
  unfold UnionFind.resolveTop
  rcases hgtt : dget uf.group_to_top_group g with _ | c
  · rfl
  · simpa using h5 g hg c hgtt

theorem known_top_canonical {uf : UnionFind I G} (hInv : StrongInv uf) {g : G}
    (hk : uf.knownGroup g = true) :
    dmem uf.group_to_item_set (uf.resolveTop g) = true := by
  obtain ⟨-, h2, -, h5, -, -⟩ := hInv
  rcases Bool.or_eq_true_iff.mp hk with hc | ha
  · rw [resolveTop_of_canonical h5 hc]
    exact hc
  · obtain ⟨c, hcg⟩ := dmem_iff_dget.mp ha
    have : uf.resolveTop g = c := by
      unfold UnionFind.resolveTop
      rw [hcg]
      rfl
    rw [this]
    exact h2 g c hcg

/-- A successful `union` on two known groups with distinct canonical tops
preserves the strengthened invariant. -/
theorem union_strong_inv {uf uf' : UnionFind I G} {ga gb : G}
    (hInv : StrongInv uf) (hka : uf.knownGroup ga = true)
    (hkb : uf.knownGroup gb = true)
    (htop : uf.resolveTop ga ≠ uf.resolveTop gb)
    (hrun : uf.union ga gb = some uf') : StrongInv uf' := by
  obtain ⟨sa, hsa⟩ := dmem_iff_dget.mp (known_top_canonical hInv hka)
  obtain ⟨sb, hsb⟩ := dmem_iff_dget.mp (known_top_canonical hInv hkb)
  obtain ⟨h1, h2, h4, h5, h6, h7⟩ := hInv
  have hne : ga ≠ gb := fun h => htop (h ▸ rfl)
  have hg1 : dget uf.group_to_top_group ga ≠ some gb := by
    intro h
    have hra : uf.resolveTop ga = gb := by
      unfold UnionFind.resolveTop
      rw [h]
      rfl
    have hrb : uf.resolveTop gb = gb := resolveTop_of_canonical h5 (h2 ga gb h)
    exact htop (hra.trans hrb.symm)
  have hg2 : dget uf.group_to_top_group gb ≠ some ga := by
    intro h
    have hrb : uf.resolveTop gb = ga := by
      unfold UnionFind.resolveTop
      rw [h]
      rfl
    have hra : uf.resolveTop ga = ga := resolveTop_of_canonical h5 (h2 gb ga h)
    exact htop (hra.trans hrb.symm)
  obtain ⟨uf'', hrun'', hcount, hgis, hitg, hgtt, htgtm⟩ :=
    union_char hne hg1 hg2 htop hsa hsb
  rw [hrun] at hrun''
  injection hrun'' with heq
  subst heq
  -- abbreviations
  have hTaTb : uf.resolveTop ga ≠ uf.resolveTop gb := htop
  have memR_gtt : ∀ g ∈ (dget uf.top_group_to_merged_groups (uf.resolveTop gb)).getD [],
      dget uf.group_to_top_group g = some (uf.resolveTop gb) := by
    intro g hg
    rcases htgb : dget uf.top_group_to_merged_groups (uf.resolveTop gb) with _ | s
    · rw [htgb] at hg
      simp at hg
    · rw [htgb] at hg
      exact h6 _ s g htgb hg
  have hTbRefl : uf.resolveTop gb ≠ uf.resolveTop ga := Ne.symm htop
  refine ⟨?_, ?_, ?_, ?_, ?_, ?_⟩
  · -- Inv1
    intro i g hg
    rw [hitg i] at hg
    by_cases hib : i ∈ sb
    · rw [if_pos hib] at hg
      injection hg with hg
      subst hg
      refine ⟨supdate sa sb, ?_, by simp [hib]⟩
      rw [hgis, if_neg hTaTb, if_pos rfl]
    · rw [if_neg hib] at hg
      obtain ⟨s, hs, hm⟩ := h1 i g hg
      by_cases hgTb : g = uf.resolveTop gb
      · subst hgTb
        rw [hsb] at hs
        injection hs with hs
        subst hs
        exact absurd hm hib
      · by_cases hgTa : g = uf.resolveTop ga
        · subst hgTa
          rw [hsa] at hs
          injection hs with hs
          subst hs
          refine ⟨supdate sa sb, ?_, by simp [hm]⟩
          rw [hgis, if_neg hTaTb, if_pos rfl]
        · exact ⟨s, by rw [hgis, if_neg hgTb, if_neg hgTa]; exact hs, hm⟩
  · -- Inv2
    intro g c hc
    rw [hgtt g] at hc
    by_cases hup : g ∈ (dget uf.top_group_to_merged_groups (uf.resolveTop gb)).getD [] ∨
        g = uf.resolveTop gb ∨ g = gb
    · rw [if_pos hup] at hc
      injection hc with hc
      subst hc
      rw [dmem_iff_dget]
      exact ⟨supdate sa sb, by rw [hgis, if_neg hTaTb, if_pos rfl]⟩
    · rw [if_neg hup] at hc
      have hcTb : c ≠ uf.resolveTop gb := by
        intro hcc
        subst hcc
        rcases h7 g _ hc with heq | ⟨s0, hs0, hm0⟩
        · exact hup (Or.inr (Or.inl heq))
        · refine hup (Or.inl ?_)
          rw [hs0]
          exact hm0
      obtain ⟨s0, hs0⟩ := dmem_iff_dget.mp (h2 g c hc)
      rw [dmem_iff_dget]
      by_cases hcTa : c = uf.resolveTop ga
      · exact ⟨supdate sa sb, by rw [hgis, if_neg hcTb, if_pos hcTa]⟩
      · exact ⟨s0, by rw [hgis, if_neg hcTb, if_neg hcTa]; exact hs0⟩
  · -- Inv4
    intro g s i hs hm
    rw [hgis g] at hs
    by_cases hgTb : g = uf.resolveTop gb
    · rw [if_pos hgTb] at hs
      exact absurd hs (by simp)
    · rw [if_neg hgTb] at hs
      by_cases hgTa : g = uf.resolveTop ga
      · rw [if_pos hgTa] at hs
        injection hs with hs
        subst hs
        by_cases hib : i ∈ sb
        · rw [hitg i, if_pos hib, hgTa]
        · rcases (mem_supdate sa sb i).mp hm with hi | hi
          · rw [hitg i, if_neg hib, hgTa]
            exact h4 _ sa i hsa hi
          · exact absurd hi hib
      · rw [if_neg hgTa] at hs
        have hold := h4 g s i hs hm
        by_cases hib : i ∈ sb
        · have := h4 _ sb i hsb hib
          rw [hold] at this
          injection this with this
          exact absurd this hgTb
        · rw [hitg i, if_neg hib]
          exact hold
  · -- Inv5
    intro g hgdom c hc
    have hgTb : g ≠ uf.resolveTop gb := by
      intro h
      rw [dmem, hgis g, if_pos h] at hgdom
      simp at hgdom
    have hgdom_old : dmem uf.group_to_item_set g = true := by
      rw [dmem, hgis g, if_neg hgTb] at hgdom
      by_cases hgTa : g = uf.resolveTop ga
      · rw [dmem_iff_dget]
        exact ⟨sa, hgTa ▸ hsa⟩
      · rw [if_neg hgTa] at hgdom
        exact hgdom
    rw [hgtt g] at hc
    by_cases hup : g ∈ (dget uf.top_group_to_merged_groups (uf.resolveTop gb)).getD [] ∨
        g = uf.resolveTop gb ∨ g = gb
    · exfalso
      rcases hup with hR | heq | heq
      · have := h5 g hgdom_old _ (memR_gtt g hR)
        exact hgTb this.symm
      · exact hgTb heq
      · apply hgTb
        have : uf.resolveTop gb = g := by
          unfold UnionFind.resolveTop
          rw [← heq]
          rcases hgb : dget uf.group_to_top_group g with _ | c'
          · rfl
          · simpa using h5 g hgdom_old c' hgb
        exact this.symm
    · rw [if_neg hup] at hc
      exact h5 g hgdom_old c hc
  · -- Inv6
    intro c s g hcs hm
    rw [htgtm c] at hcs
    by_cases hcTb : c = uf.resolveTop gb
    · rw [if_pos hcTb] at hcs
      exact absurd hcs (by simp)
    · rw [if_neg hcTb] at hcs
      by_cases hcTa : c = uf.resolveTop ga
      · rw [if_pos hcTa] at hcs
        injection hcs with hcs
        subst hcs
        subst hcTa
        rw [hgtt g]
        rcases (mem_supdate _ _ g).mp hm with hm1 | hmR
        · rcases (mem_sadd _ _ g).mp hm1 with hm2 | heq
          · rcases (mem_sadd _ _ g).mp hm2 with hmA | heq
            · -- member of the old merged set of top_a
              rcases htga : dget uf.top_group_to_merged_groups (uf.resolveTop ga) with _ | sA
              · rw [htga] at hmA
                simp at hmA
              · rw [htga] at hmA
                simp only [Option.getD_some] at hmA
                have := h6 _ sA g htga hmA
                by_cases hup : g ∈ (dget uf.top_group_to_merged_groups
                    (uf.resolveTop gb)).getD [] ∨ g = uf.resolveTop gb ∨ g = gb
                · rw [if_pos hup]
                · rw [if_neg hup]
                  exact this
            · rw [if_pos (Or.inr (Or.inr heq))]
          · rw [if_pos (Or.inr (Or.inl heq))]
        · rw [if_pos (Or.inl hmR)]
      · rw [if_neg hcTa] at hcs
        have hold := h6 c s g hcs hm
        rw [hgtt g]
        have hnup : ¬ (g ∈ (dget uf.top_group_to_merged_groups
            (uf.resolveTop gb)).getD [] ∨ g = uf.resolveTop gb ∨ g = gb) := by
          rintro (hR | heq | heq)
          · have := memR_gtt g hR
            rw [hold] at this
            injection this with this
            exact hcTb this
          · subst heq
            have hdomTb : dmem uf.group_to_item_set (uf.resolveTop gb) = true :=
              dmem_iff_dget.mpr ⟨sb, hsb⟩
            exact hcTb (h5 _ hdomTb c hold)
          · have : uf.resolveTop gb = c := by
              unfold UnionFind.resolveTop
              rw [← heq, hold]
              rfl
            exact hcTb this.symm
        rw [if_neg hnup]
        exact hold
  · -- Inv7
    intro g c hc
    rw [hgtt g] at hc
    by_cases hup : g ∈ (dget uf.top_group_to_merged_groups (uf.resolveTop gb)).getD [] ∨
        g = uf.resolveTop gb ∨ g = gb
    · rw [if_pos hup] at hc
      injection hc with hc
      subst hc
      right
      refine ⟨_, by rw [htgtm, if_neg hTbRefl.symm, if_pos rfl], ?_⟩
      rcases hup with hR | heq | heq
      · exact (mem_supdate _ _ g).mpr (Or.inr hR)
      · exact (mem_supdate _ _ g).mpr (Or.inl ((mem_sadd _ _ g).mpr (Or.inr heq)))
      · exact (mem_supdate _ _ g).mpr
          (Or.inl ((mem_sadd _ _ g).mpr (Or.inl ((mem_sadd _ _ g).mpr (Or.inr heq)))))
    · rw [if_neg hup] at hc
      rcases h7 g c hc with heq | ⟨s0, hs0, hm0⟩
      · exact Or.inl heq
      · by_cases hcTb : c = uf.resolveTop gb
        · exfalso
          apply hup
          left
          rw [hcTb] at hs0
          rw [hs0]
          exact hm0
        · by_cases hcTa : c = uf.resolveTop ga
          · right
            refine ⟨_, by rw [htgtm, if_neg hcTb, if_pos hcTa], ?_⟩
            refine (mem_supdate _ _ g).mpr (Or.inl ((mem_sadd _ _ g).mpr
              (Or.inl ((mem_sadd _ _ g).mpr (Or.inl ?_)))))
            rw [hcTa] at hs0
            rw [hs0]
            exact hm0
          · right
            exact ⟨s0, by rw [htgtm, if_neg hcTb, if_neg hcTa]; exact hs0, hm0⟩

theorem strong_inv_count {uf : UnionFind I G} {n : Nat} (h : StrongInv uf) :
    StrongInv { uf with count := n } := h

/-- Adding a previously unseen item to an existing group's item set (and
recording the item's group) preserves the invariant; stated pointwise so it
applies to any record whose dictionaries agree with the update. -/
theorem add_member_inv {uf uf' : UnionFind I G} {g : G} {s : List I} {i : I}
    (hInv : StrongInv uf) (hg : dget uf.group_to_item_set g = some s)
    (hi : dget uf.item_to_group i = none)
    (e1 : ∀ x, dget uf'.group_to_item_set x =
      dget (dset uf.group_to_item_set g (sadd s i)) x)
    (e2 : ∀ j, dget uf'.item_to_group j = dget (dset uf.item_to_group i g) j)
    (e3 : ∀ y, dget uf'.group_to_top_group y = dget uf.group_to_top_group y)
    (e4 : ∀ z, dget uf'.top_group_to_merged_groups z =
      dget uf.top_group_to_merged_groups z) : StrongInv uf' := by
  obtain ⟨h1, h2, h4, h5, h6, h7⟩ := hInv
  refine ⟨?_, ?_, ?_, ?_, ?_, ?_⟩
  · intro j g' hj
    rw [e2 j, dget_dset] at hj
    by_cases hji : j = i
    · rw [if_pos hji] at hj
      injection hj with hj
      subst hj
      refine ⟨sadd s i, ?_, by simp [hji]⟩
      rw [e1, dget_dset, if_pos rfl]
    · rw [if_neg hji] at hj
      obtain ⟨s0, hs0, hm0⟩ := h1 j g' hj
      by_cases hg' : g' = g
      · subst hg'
        rw [hg] at hs0
        injection hs0 with hs0
        subst hs0
        refine ⟨sadd s i, ?_, by simp [hm0]⟩
        rw [e1, dget_dset, if_pos rfl]
      · exact ⟨s0, by rw [e1, dget_dset, if_neg hg']; exact hs0, hm0⟩
  · intro g' c hc
    rw [e3] at hc
    have hd := h2 g' c hc
    rw [dmem_iff_dget] at hd ⊢
    obtain ⟨v, hv⟩ := hd
    by_cases hcg : c = g
    · exact ⟨sadd s i, by rw [e1, dget_dset, if_pos hcg]⟩
    · exact ⟨v, by rw [e1, dget_dset, if_neg hcg]; exact hv⟩
  · intro g' s' j hs' hj
    rw [e1, dget_dset] at hs'
    rw [e2, dget_dset]
    by_cases hg' : g' = g
    · rw [if_pos hg'] at hs'
      injection hs' with hs'
      subst hs'
      rcases (mem_sadd s i j).mp hj with hjs | hji
      · by_cases hji : j = i
        · rw [if_pos hji, hg']
        · rw [if_neg hji, hg']
          exact h4 g s j hg hjs
      · rw [if_pos hji, hg']
    · rw [if_neg hg'] at hs'
      by_cases hji : j = i
      · subst hji
        have hj4 := h4 g' s' j hs' hj
        rw [hi] at hj4
        exact Option.noConfusion hj4
      · rw [if_neg hji]
        exact h4 g' s' j hs' hj
  · intro g' hdom c hc
    rw [e3] at hc
    refine h5 g' ?_ c hc
    rw [dmem_iff_dget] at hdom ⊢
    obtain ⟨v, hv⟩ := hdom
    rw [e1, dget_dset] at hv
    by_cases hg' : g' = g
    · exact ⟨s, by rw [hg']; exact hg⟩
    · rw [if_neg hg'] at hv
      exact ⟨v, hv⟩
  · intro c s' g' hcs hm
    rw [e4] at hcs
    rw [e3]
    exact h6 c s' g' hcs hm
  · intro g' c hc
    rw [e3] at hc
    rcases h7 g' c hc with heq | ⟨s0, hs0, hm0⟩
    · exact Or.inl heq
    · exact Or.inr ⟨s0, by rw [e4]; exact hs0, hm0⟩

/-- Adding an item that is already recorded as belonging to group `g` back
into `g`'s item set (a redundant `sadd`) preserves the invariant. -/
theorem add_known_member_inv {uf uf' : UnionFind I G} {g : G} {s : List I} {j : I}
    (hInv : StrongInv uf) (hg : dget uf.group_to_item_set g = some s)
    (hj : dget uf.item_to_group j = some g)
    (e1 : ∀ x, dget uf'.group_to_item_set x =
      dget (dset uf.group_to_item_set g (sadd s j)) x)
    (e2 : ∀ i, dget uf'.item_to_group i = dget uf.item_to_group i)
    (e3 : ∀ y, dget uf'.group_to_top_group y = dget uf.group_to_top_group y)
    (e4 : ∀ z, dget uf'.top_group_to_merged_groups z =
      dget uf.top_group_to_merged_groups z) : StrongInv uf' := by
  obtain ⟨h1, h2, h4, h5, h6, h7⟩ := hInv
  refine ⟨?_, ?_, ?_, ?_, ?_, ?_⟩
  · intro i g' hi
    rw [e2] at hi
    obtain ⟨s0, hs0, hm0⟩ := h1 i g' hi
    by_cases hg' : g' = g
    · subst hg'
      rw [hg] at hs0
      injection hs0 with hs0
      subst hs0
      exact ⟨sadd s j, by rw [e1, dget_dset, if_pos rfl], by simp [hm0]⟩
    · exact ⟨s0, by rw [e1, dget_dset, if_neg hg']; exact hs0, hm0⟩
  · intro g' c hc
    rw [e3] at hc
    have hd := h2 g' c hc
    rw [dmem_iff_dget] at hd ⊢
    obtain ⟨v, hv⟩ := hd
    by_cases hcg : c = g
    · exact ⟨sadd s j, by rw [e1, dget_dset, if_pos hcg]⟩
    · exact ⟨v, by rw [e1, dget_dset, if_neg hcg]; exact hv⟩
  · intro g' s' i hs' hm
    rw [e1, dget_dset] at hs'
    rw [e2]
    by_cases hg' : g' = g
    · rw [if_pos hg'] at hs'
      injection hs' with hs'
      subst hs'
      rcases (mem_sadd s j i).mp hm with his | hij
      · rw [hg']
        exact h4 g s i hg his
      · subst hij
        rw [hg']
        exact hj
    · rw [if_neg hg'] at hs'
      exact h4 g' s' i hs' hm
  · intro g' hdom c hc
    rw [e3] at hc
    refine h5 g' ?_ c hc
    rw [dmem_iff_dget] at hdom ⊢
    obtain ⟨v, hv⟩ := hdom
    rw [e1, dget_dset] at hv
    by_cases hg' : g' = g
    · exact ⟨s, by rw [hg']; exact hg⟩
    · rw [if_neg hg'] at hv
      exact ⟨v, hv⟩
  · intro c s' g' hcs hm
    rw [e4] at hcs
    rw [e3]
    exact h6 c s' g' hcs hm
  · intro g' c hc
    rw [e3] at hc
    rcases h7 g' c hc with heq | ⟨s0, hs0, hm0⟩
    · exact Or.inl heq
    · exact Or.inr ⟨s0, by rw [e4]; exact hs0, hm0⟩

/-- Creating a brand-new singleton group for a previously unseen item
preserves the invariant. -/
theorem fresh_singleton_inv {uf uf' : UnionFind I G} {g : G} {i : I}
    (hInv : StrongInv uf) (hgis : dmem uf.group_to_item_set g = false)
    (hgtt : dget uf.group_to_top_group g = none)
    (hi : dget uf.item_to_group i = none)
    (e1 : ∀ x, dget uf'.group_to_item_set x =
      dget (dset uf.group_to_item_set g [i]) x)
    (e2 : ∀ j, dget uf'.item_to_group j = dget (dset uf.item_to_group i g) j)
    (e3 : ∀ y, dget uf'.group_to_top_group y = dget uf.group_to_top_group y)
    (e4 : ∀ z, dget uf'.top_group_to_merged_groups z =
      dget uf.top_group_to_merged_groups z) : StrongInv uf' := by
  obtain ⟨h1, h2, h4, h5, h6, h7⟩ := hInv
  have hgisn : dget uf.group_to_item_set g = none := by
    cases hv : dget uf.group_to_item_set g
    · rfl
    · rw [dmem, hv] at hgis
      simp at hgis
  refine ⟨?_, ?_, ?_, ?_, ?_, ?_⟩
  · intro j g' hj
    rw [e2, dget_dset] at hj
    by_cases hji : j = i
    · rw [if_pos hji] at hj
      injection hj with hj
      subst hj
      exact ⟨[i], by rw [e1, dget_dset, if_pos rfl], by simp [hji]⟩
    · rw [if_neg hji] at hj
      obtain ⟨s0, hs0, hm0⟩ := h1 j g' hj
      have hg' : g' ≠ g := by
        intro h
        rw [h, hgisn] at hs0
        exact Option.noConfusion hs0
      exact ⟨s0, by rw [e1, dget_dset, if_neg hg']; exact hs0, hm0⟩
  · intro g' c hc
    rw [e3] at hc
    have hd := h2 g' c hc
    rw [dmem_iff_dget] at hd ⊢
    obtain ⟨v, hv⟩ := hd
    by_cases hcg : c = g
    · exact ⟨[i], by rw [e1, dget_dset, if_pos hcg]⟩
    · exact ⟨v, by rw [e1, dget_dset, if_neg hcg]; exact hv⟩
  · intro g' s' j hs' hm
    rw [e1, dget_dset] at hs'
    rw [e2, dget_dset]
    by_cases hg' : g' = g
    · rw [if_pos hg'] at hs'
      injection hs' with hs'
      subst hs'
      have hji : j = i := by simpa using hm
      rw [if_pos hji, hg']
    · rw [if_neg hg'] at hs'
      by_cases hji : j = i
      · subst hji
        have hj4 := h4 g' s' j hs' hm
        rw [hi] at hj4
        exact Option.noConfusion hj4
      · rw [if_neg hji]
        exact h4 g' s' j hs' hm
  · intro g' hdom c hc
    rw [e3] at hc
    by_cases hg' : g' = g
    · rw [hg', hgtt] at hc
      exact Option.noConfusion hc
    · refine h5 g' ?_ c hc
      rw [dmem_iff_dget] at hdom ⊢
      obtain ⟨v, hv⟩ := hdom
      rw [e1, dget_dset, if_neg hg'] at hv
      exact ⟨v, hv⟩
  · intro c s' g' hcs hm
    rw [e4] at hcs
    rw [e3]
    exact h6 c s' g' hcs hm
  · intro g' c hc
    rw [e3] at hc
    rcases h7 g' c hc with heq | ⟨s0, hs0, hm0⟩
    · exact Or.inl heq
    · exact Or.inr ⟨s0, by rw [e4]; exact hs0, hm0⟩

/-- A successful `union` of a known group into a canonical group preserves
the invariant: either one of the early-return guards fires (state
unchanged), or the two canonical tops are distinct. -/
theorem union_canonical_strong_inv {uf uf' : UnionFind I G} {ga gb : G}
    (hInv : StrongInv uf) (hka : uf.knownGroup ga = true)
    (hkb : dmem uf.group_to_item_set gb = true)
    (hrun : uf.union ga gb = some uf') : StrongInv uf' := by
  by_cases h0 : ga = gb
  · have he : uf.union ga gb = some uf := by
      simp only [UnionFind.union, if_pos h0]
    rw [he] at hrun
    injection hrun with h
    exact h ▸ hInv
  by_cases hga1 : dget uf.group_to_top_group ga = some gb
  · have he : uf.union ga gb = some uf := by
      simp only [UnionFind.union, if_neg h0, if_pos hga1]
    rw [he] at hrun
    injection hrun with h
    exact h ▸ hInv
  by_cases hga2 : dget uf.group_to_top_group gb = some ga
  · have he : uf.union ga gb = some uf := by
      simp only [UnionFind.union, if_neg h0, if_neg hga1, if_pos hga2]
    rw [he] at hrun
    injection hrun with h
    exact h ▸ hInv
  · have h5 := hInv.2.2.2.1
    have hrb : uf.resolveTop gb = gb := resolveTop_of_canonical h5 hkb
    have htop : uf.resolveTop ga ≠ uf.resolveTop gb := by
      rw [hrb]
      intro hra
      rcases hga : dget uf.group_to_top_group ga with _ | c
      · apply h0
        unfold UnionFind.resolveTop at hra
        rw [hga] at hra
        simpa using hra
      · apply hga1
        unfold UnionFind.resolveTop at hra
        rw [hga] at hra
        simp only [Option.getD_some] at hra
        rw [hga, hra]
    exact union_strong_inv hInv hka (by simp [UnionFind.knownGroup, hkb]) htop hrun

/-- The `add_item_dedup` branch that creates the missing group before the
internal merge: the intermediate state is the original one with a new
singleton item set for `group` whose item is already known, and the
subsequent `union(item_group, group)` reduces to recording the alias
`group -> item_group`; the invariant is preserved. -/
theorem dedup_new_group_union_inv {uf uf1 uf2 : UnionFind I G} {g ig : G} {item : I}
    (hInv : StrongInv uf) (hitem : dget uf.item_to_group item = some ig)
    (hgig : g ≠ ig) (hmem : dmem uf.group_to_item_set g = false)
    (hgtt : dget uf.group_to_top_group g = none)
    (hrun : uf1.union ig g = some uf2)
    (f1 : uf1.group_to_item_set = dset uf.group_to_item_set g [item])
    (f2 : uf1.item_to_group = uf.item_to_group)
    (f3 : uf1.group_to_top_group = uf.group_to_top_group)
    (f4 : uf1.top_group_to_merged_groups = uf.top_group_to_merged_groups) :
    StrongInv uf2 ∧
    (∀ y, dget uf2.group_to_item_set y = dget uf.group_to_item_set y) ∧
    (∀ j, dget uf2.item_to_group j = dget uf.item_to_group j) ∧
    (∀ y, dget uf2.group_to_top_group y =
      if y = g then some ig else dget uf.group_to_top_group y) := by
  obtain ⟨h1, h2, h4, h5, h6, h7⟩ := hInv
  obtain ⟨s_ig, hsig, hmig⟩ := h1 item ig hitem
  have hgisn : dget uf.group_to_item_set g = none := by
    cases hv : dget uf.group_to_item_set g
    · rfl
    · rw [dmem, hv] at hmem
      simp at hmem
  have hIg : ig ≠ g := Ne.symm hgig
  have hres : ∀ x, uf1.resolveTop x = uf.resolveTop x := by
    intro x
    unfold UnionFind.resolveTop
    rw [f3]
  have hra : uf.resolveTop ig = ig :=
    resolveTop_of_canonical h5 (dmem_iff_dget.mpr ⟨s_ig, hsig⟩)
  have hrg : uf.resolveTop g = g := by
    unfold UnionFind.resolveTop
    rw [hgtt]
    rfl
  have hg1 : dget uf1.group_to_top_group ig ≠ some g := by
    rw [f3]
    intro h
    have hd := h2 ig g h
    rw [hmem] at hd
    exact Bool.noConfusion hd
  have hg2 : dget uf1.group_to_top_group g ≠ some ig := by
    rw [f3, hgtt]
    simp
  have htop : uf1.resolveTop ig ≠ uf1.resolveTop g := by
    rw [hres, hres, hra, hrg]
    exact hIg
  have hsa : dget uf1.group_to_item_set (uf1.resolveTop ig) = some s_ig := by
    rw [hres, hra, f1, dget_dset, if_neg hIg]
    exact hsig
  have hsb : dget uf1.group_to_item_set (uf1.resolveTop g) = some [item] := by
    rw [hres, hrg, f1, dget_dset, if_pos rfl]
  obtain ⟨uf'', hrun'', hcount, hgisF, hitgF, hgttF, htgtmF⟩ :=
    union_char hIg hg1 hg2 htop hsa hsb
  rw [hrun] at hrun''
  injection hrun'' with heq
  subst heq
  have hRnil : (dget uf.top_group_to_merged_groups g).getD [] = [] := by
    rcases hR : dget uf.top_group_to_merged_groups g with _ | sR
    · rfl
    · cases sR with
      | nil => rfl
      | cons x xs =>
        have hx6 := h6 g (x :: xs) x hR (by simp)
        have hx2 := h2 x g hx6
        rw [hmem] at hx2
        exact Bool.noConfusion hx2
  simp only [hres, hra, hrg, f1, f2, f3, f4, hRnil, List.not_mem_nil, false_or,
    or_self, List.mem_singleton, supdate_nil] at hgisF hitgF hgttF htgtmF
  have hsg : sadd (sadd ((dget uf.top_group_to_merged_groups ig).getD []) g) g =
      sadd ((dget uf.top_group_to_merged_groups ig).getD []) g :=
    sadd_mem_self ((mem_sadd _ _ _).mpr (Or.inr rfl))
  -- normalized pointwise descriptions of the result
  have P1 : ∀ x, dget uf2.group_to_item_set x = dget uf.group_to_item_set x := by
    intro x
    rw [hgisF x]
    by_cases hx : x = g
    · rw [if_pos hx, hx, hgisn]
    · rw [if_neg hx]
      by_cases hx2 : x = ig
      · rw [if_pos hx2, supdate_singleton, sadd_mem_self hmig, hx2, hsig]
      · rw [if_neg hx2, dget_dset, if_neg hx]
  have P2 : ∀ i, dget uf2.item_to_group i = dget uf.item_to_group i := by
    intro i
    rw [hitgF i]
    by_cases hi : i = item
    · rw [if_pos hi, hi, hitem]
    · rw [if_neg hi]
  have P3 : ∀ y, dget uf2.group_to_top_group y =
      if y = g then some ig else dget uf.group_to_top_group y := hgttF
  have P4 : ∀ c, dget uf2.top_group_to_merged_groups c =
      if c = g then none
      else if c = ig then some (sadd ((dget uf.top_group_to_merged_groups ig).getD []) g)
      else dget uf.top_group_to_merged_groups c := by
    intro c
    rw [htgtmF c, hsg]
  refine ⟨⟨?_, ?_, ?_, ?_, ?_, ?_⟩, P1, P2, P3⟩
  · intro i g' hi
    rw [P2] at hi
    obtain ⟨s0, hs0, hm0⟩ := h1 i g' hi
    exact ⟨s0, by rw [P1]; exact hs0, hm0⟩
  · intro g' c hc
    rw [P3] at hc
    rw [dmem_iff_dget]
    by_cases hy : g' = g
    · rw [if_pos hy] at hc
      injection hc with hc
      subst hc
      exact ⟨s_ig, by rw [P1]; exact hsig⟩
    · rw [if_neg hy] at hc
      obtain ⟨v, hv⟩ := dmem_iff_dget.mp (h2 g' c hc)
      exact ⟨v, by rw [P1]; exact hv⟩
  · intro g' s' i hs' hm
    rw [P1] at hs'
    rw [P2]
    exact h4 g' s' i hs' hm
  · intro g' hdom c hc
    have hdom' : dmem uf.group_to_item_set g' = true := by
      rw [dmem_iff_dget] at hdom ⊢
      obtain ⟨v, hv⟩ := hdom
      rw [P1] at hv
      exact ⟨v, hv⟩
    rw [P3] at hc
    by_cases hy : g' = g
    · rw [hy, hmem] at hdom'
      exact Bool.noConfusion hdom'
    · rw [if_neg hy] at hc
      exact h5 g' hdom' c hc
  · intro c s' g0 hcs hm0
    rw [P4] at hcs
    by_cases hcg : c = g
    · rw [if_pos hcg] at hcs
      exact Option.noConfusion hcs
    · rw [if_neg hcg] at hcs
      by_cases hcig : c = ig
      · rw [if_pos hcig] at hcs
        injection hcs with hcs
        subst hcs
        rw [P3]
        rcases (mem_sadd _ _ g0).mp hm0 with hmA | heq
        · rcases hA : dget uf.top_group_to_merged_groups ig with _ | sA
          · rw [hA] at hmA
            simp at hmA
          · rw [hA] at hmA
            simp only [Option.getD_some] at hmA
            have hx6 := h6 ig sA g0 hA hmA
            have hg0 : g0 ≠ g := by
              intro h
              rw [h, hgtt] at hx6
              exact Option.noConfusion hx6
            rw [if_neg hg0, hx6, hcig]
        · rw [if_pos heq, hcig]
      · rw [if_neg hcig] at hcs
        have hx6 := h6 c s' g0 hcs hm0
        have hg0 : g0 ≠ g := by
          intro h
          rw [h, hgtt] at hx6
          exact Option.noConfusion hx6
        rw [P3, if_neg hg0]
        exact hx6
  · intro g0 c hc
    rw [P3] at hc
    by_cases hy : g0 = g
    · rw [if_pos hy] at hc
      injection hc with hc
      subst hc
      right
      refine ⟨sadd ((dget uf.top_group_to_merged_groups ig).getD []) g, ?_, ?_⟩
      · rw [P4, if_neg hIg, if_pos rfl]
      · exact (mem_sadd _ _ g0).mpr (Or.inr hy)
    · rw [if_neg hy] at hc
      rcases h7 g0 c hc with heq | ⟨s0, hs0, hm0⟩
      · exact Or.inl heq
      · by_cases hcg : c = g
        · exfalso
          rw [hcg] at hs0
          have hx6 := h6 g s0 g0 hs0 hm0
          have hx2 := h2 g0 g hx6
          rw [hmem] at hx2
          exact Bool.noConfusion hx2
        · by_cases hcig : c = ig
          · right
            refine ⟨sadd ((dget uf.top_group_to_merged_groups ig).getD []) g, ?_, ?_⟩
            · rw [P4, if_neg hcg, if_pos hcig]
            · refine (mem_sadd _ _ g0).mpr (Or.inl ?_)
              rw [hcig] at hs0
              rw [hs0]
              exact hm0
          · right
            exact ⟨s0, by rw [P4, if_neg hcg, if_neg hcig]; exact hs0, hm0⟩

/-- The `add_item_M2M` branch in which neither component item has been seen:
the fresh group receives the tuple and both components, a self alias is
written, and the invariant is preserved. -/
theorem m2m_fresh_pair_inv {uf uf' : UnionFind I G} {g : G} {a b it : I}
    (hInv : StrongInv uf)
    (hgis : dmem uf.group_to_item_set g = false)
    (hgtt : dget uf.group_to_top_group g = none)
    (hit : dget uf.item_to_group it = none)
    (hia : dget uf.item_to_group a = none)
    (hib : dget uf.item_to_group b = none)
    (e1 : ∀ x, dget uf'.group_to_item_set x =
      if x = g then some (sadd (sadd [it] a) b) else dget uf.group_to_item_set x)
    (e2 : ∀ j, dget uf'.item_to_group j =
      if j = b then some g else if j = a then some g else if j = it then some g
      else dget uf.item_to_group j)
    (e3 : ∀ y, dget uf'.group_to_top_group y =
      if y = g then some g else dget uf.group_to_top_group y)
    (e4 : ∀ z, dget uf'.top_group_to_merged_groups z =
      dget uf.top_group_to_merged_groups z) : StrongInv uf' := by
  obtain ⟨h1, h2, h4, h5, h6, h7⟩ := hInv
  have hgisn : dget uf.group_to_item_set g = none := by
    rcases hv : dget uf.group_to_item_set g with _ | v
    · rfl
    · rw [dmem, hv] at hgis
      simp at hgis
  have hmem3 : ∀ j, j ∈ sadd (sadd [it] a) b ↔ j = it ∨ j = a ∨ j = b := by
    intro j
    rw [mem_sadd, mem_sadd]
    simp [or_assoc]
  refine ⟨?_, ?_, ?_, ?_, ?_, ?_⟩
  · intro j g' hj
    rw [e2] at hj
    by_cases hjb : j = b
    · rw [if_pos hjb] at hj
      injection hj with hj
      subst hj
      exact ⟨_, by rw [e1, if_pos rfl], (hmem3 j).mpr (Or.inr (Or.inr hjb))⟩
    · rw [if_neg hjb] at hj
      by_cases hja : j = a
      · rw [if_pos hja] at hj
        injection hj with hj
        subst hj
        exact ⟨_, by rw [e1, if_pos rfl], (hmem3 j).mpr (Or.inr (Or.inl hja))⟩
      · rw [if_neg hja] at hj
        by_cases hjit : j = it
        · rw [if_pos hjit] at hj
          injection hj with hj
          subst hj
          exact ⟨_, by rw [e1, if_pos rfl], (hmem3 j).mpr (Or.inl hjit)⟩
        · rw [if_neg hjit] at hj
          obtain ⟨s0, hs0, hm0⟩ := h1 j g' hj
          have hg' : g' ≠ g := by
            intro h
            rw [h, hgisn] at hs0
            exact Option.noConfusion hs0
          exact ⟨s0, by rw [e1, if_neg hg']; exact hs0, hm0⟩
  · intro g' c hc
    rw [e3] at hc
    rw [dmem_iff_dget]
    by_cases hy : g' = g
    · rw [if_pos hy] at hc
      injection hc with hc
      subst hc
      exact ⟨_, by rw [e1, if_pos rfl]⟩
    · rw [if_neg hy] at hc
      have hd := h2 g' c hc
      obtain ⟨v, hv⟩ := dmem_iff_dget.mp hd
      have hcg : c ≠ g := by
        intro h
        rw [h, hgisn] at hv
        exact Option.noConfusion hv
      exact ⟨v, by rw [e1, if_neg hcg]; exact hv⟩
  · intro g' s' j hs' hm
    rw [e1] at hs'
    rw [e2]
    by_cases hy : g' = g
    · rw [if_pos hy] at hs'
      injection hs' with hs'
      subst hs'
      rw [hy]
      rcases (hmem3 j).mp hm with hjit | hja | hjb
      · by_cases hjb : j = b
        · rw [if_pos hjb]
        · rw [if_neg hjb]
          by_cases hja : j = a
          · rw [if_pos hja]
          · rw [if_neg hja, if_pos hjit]
      · by_cases hjb : j = b
        · rw [if_pos hjb]
        · rw [if_neg hjb, if_pos hja]
      · rw [if_pos hjb]
    · rw [if_neg hy] at hs'
      have hj4 := h4 g' s' j hs' hm
      by_cases hjb : j = b
      · rw [hjb, hib] at hj4
        exact Option.noConfusion hj4
      · rw [if_neg hjb]
        by_cases hja : j = a
        · rw [hja, hia] at hj4
          exact Option.noConfusion hj4
        · rw [if_neg hja]
          by_cases hjit : j = it
          · rw [hjit, hit] at hj4
            exact Option.noConfusion hj4
          · rw [if_neg hjit]
            exact hj4
  · intro g' hdom c hc
    rw [e3] at hc
    by_cases hy : g' = g
    · rw [if_pos hy] at hc
      injection hc with hc
      rw [← hc, hy]
    · rw [if_neg hy] at hc
      refine h5 g' ?_ c hc
      rw [dmem_iff_dget] at hdom ⊢
      obtain ⟨v, hv⟩ := hdom
      rw [e1, if_neg hy] at hv
      exact ⟨v, hv⟩
  · intro c s' g0 hcs hm0
    rw [e4] at hcs
    have hx6 := h6 c s' g0 hcs hm0
    have hg0 : g0 ≠ g := by
      intro h
      rw [h, hgtt] at hx6
      exact Option.noConfusion hx6
    rw [e3, if_neg hg0]
    exact hx6
  · intro g0 c hc
    rw [e3] at hc
    by_cases hy : g0 = g
    · rw [if_pos hy] at hc
      injection hc with hc
      exact Or.inl (hy.trans hc)
    · rw [if_neg hy] at hc
      rcases h7 g0 c hc with heq | ⟨s0, hs0, hm0⟩
      · exact Or.inl heq
      · exact Or.inr ⟨s0, by rw [e4]; exact hs0, hm0⟩

/-- `add_item_dedup` preserves the invariant unconditionally. -/
theorem add_item_dedup_strong_inv {uf uf' : UnionFind I G} {g : G} {i : I}
    (hInv : StrongInv uf) (hrun : uf.add_item_dedup g i = some uf') :
    StrongInv uf' := by
  unfold UnionFind.add_item_dedup at hrun
  rcases hitg : dget uf.item_to_group i with _ | ig
  · -- item not seen before
    simp only [hitg] at hrun
    rcases hgtt : dget uf.group_to_top_group g with _ | tg
    · simp only [hgtt] at hrun
      rcases hgis : dget uf.group_to_item_set g with _ | s
      · simp only [hgis] at hrun
        injection hrun with h
        subst h
        exact fresh_singleton_inv hInv (by rw [dmem, hgis]; rfl) hgtt hitg
          (fun _ => rfl) (fun _ => rfl) (fun _ => rfl) (fun _ => rfl)
      · simp only [hgis] at hrun
        injection hrun with h
        subst h
        exact add_member_inv hInv hgis hitg
          (fun _ => rfl) (fun _ => rfl) (fun _ => rfl) (fun _ => rfl)
    · simp only [hgtt] at hrun
      rcases hgtg : dget uf.group_to_item_set tg with _ | s
      · simp only [hgtg] at hrun
        exact Option.noConfusion hrun
      · simp only [hgtg] at hrun
        injection hrun with h
        subst h
        exact add_member_inv hInv hgtg hitg
          (fun _ => rfl) (fun _ => rfl) (fun _ => rfl) (fun _ => rfl)
  · -- item already recorded in group `ig`
    simp only [hitg] at hrun
    by_cases hgi : g = ig
    · rw [if_pos hgi] at hrun
      injection hrun with h
      exact h ▸ hInv
    · rw [if_neg hgi] at hrun
      by_cases hmem : dmem uf.group_to_item_set g = true
      · rw [if_pos hmem] at hrun
        rw [Option.map_eq_some'] at hrun
        obtain ⟨uf1, hu, he⟩ := hrun
        have hka : uf.knownGroup ig = true := by
          obtain ⟨s0, hs0, -⟩ := hInv.1 i ig hitg
          simp [UnionFind.knownGroup, dmem, hs0]
        have hres := union_canonical_strong_inv hInv hka hmem hu
        exact he ▸ (strong_inv_count hres)
      · rw [if_neg hmem] at hrun
        rcases hgtt : dget uf.group_to_top_group g with _ | tg
        · simp only [hgtt] at hrun
          rw [Option.map_eq_some'] at hrun
          obtain ⟨uf2, hu, he⟩ := hrun
          have hres := (dedup_new_group_union_inv hInv hitg hgi
            (by simpa using hmem) hgtt hu rfl rfl rfl rfl).1
          exact he ▸ (strong_inv_count hres)
        · simp only [hgtt] at hrun
          by_cases htg : tg = ig
          · rw [if_neg (not_not_intro htg)] at hrun
            injection hrun with h
            exact h ▸ (strong_inv_count hInv)
          · rw [if_pos htg] at hrun
            rw [Option.map_eq_some'] at hrun
            obtain ⟨uf1, hu, he⟩ := hrun
            have hka : uf.knownGroup tg = true := by
              have := hInv.2.1 g tg hgtt
              simp [UnionFind.knownGroup, this]
            have hkb : dmem uf.group_to_item_set ig = true := by
              obtain ⟨s0, hs0, -⟩ := hInv.1 i ig hitg
              simp [dmem, hs0]
            have hres := union_canonical_strong_inv hInv hka hkb hu
            exact he ▸ (strong_inv_count hres)

/-- `add_item_M2M` preserves the invariant when (as in `add_csv`) the group
name is fresh and the stored tuple is a fresh item distinct from its two
component items. -/
theorem add_item_M2M_strong_inv {uf uf' : UnionFind I G} {g : G} {a b it : I}
    (hInv : StrongInv uf)
    (hgis0 : dmem uf.group_to_item_set g = false)
    (hgtt0 : dget uf.group_to_top_group g = none)
    (hit : dget uf.item_to_group it = none)
    (hita : it ≠ a) (hitb : it ≠ b)
    (hrun : uf.add_item_M2M g a b it = some uf') : StrongInv uf' := by
  have hgisn : dget uf.group_to_item_set g = none := by
    rcases hv : dget uf.group_to_item_set g with _ | v
    · rfl
    · rw [dmem, hv] at hgis0
      simp at hgis0
  unfold UnionFind.add_item_M2M at hrun
  simp only [] at hrun
  have ea : dget (dset uf.item_to_group it g) a = dget uf.item_to_group a := by
    rw [dget_dset, if_neg (fun h => hita h.symm)]
  have eb : dget (dset uf.item_to_group it g) b = dget uf.item_to_group b := by
    rw [dget_dset, if_neg (fun h => hitb h.symm)]
  rw [ea, eb] at hrun
  set uf0 : UnionFind I G :=
    { group_to_item_set := dset uf.group_to_item_set g [it],
      item_to_group := dset uf.item_to_group it g,
      group_to_top_group := uf.group_to_top_group,
      top_group_to_merged_groups := uf.top_group_to_merged_groups,
      count := uf.count } with huf0eq
  have huf0 : StrongInv uf0 := fresh_singleton_inv hInv hgis0 hgtt0 hit
    (fun _ => rfl) (fun _ => rfl) (fun _ => rfl) (fun _ => rfl)
  have hrg : uf.resolveTop g = g := by
    unfold UnionFind.resolveTop
    rw [hgtt0]
    rfl
  rcases hA : dget uf.item_to_group a with _ | grp
  · -- the first component has not been seen
    simp only [hA] at hrun
    rcases hB : dget uf.item_to_group b with _ | grpb
    · -- branch E: neither component seen
      simp only [hB] at hrun
      have s0 : dget (dset uf.group_to_item_set g [it]) g = some [it] := by
        rw [dget_dset, if_pos rfl]
      simp only [s0] at hrun
      have s1 : dget (dset (dset uf.group_to_item_set g [it]) g (sadd [it] a)) g =
          some (sadd [it] a) := by
        rw [dget_dset, if_pos rfl]
      simp only [s1] at hrun
      injection hrun with h
      subst h
      refine m2m_fresh_pair_inv hInv hgis0 hgtt0 hit hA hB ?_ ?_ ?_ (fun _ => rfl)
      · intro x
        show dget (dset (dset (dset uf.group_to_item_set g [it]) g (sadd [it] a)) g
          (sadd (sadd [it] a) b)) x = _
        by_cases hx : x = g
        · rw [dget_dset, if_pos hx, if_pos hx]
        · rw [dget_dset, if_neg hx, dget_dset, if_neg hx, dget_dset, if_neg hx, if_neg hx]
      · intro j
        show dget (dset (dset (dset uf.item_to_group it g) a g) b g) j = _
        simp only [dget_dset]
      · intro y
        show dget (dset uf.group_to_top_group g g) y = _
        rw [dget_dset]
    · -- branch D: only the second component seen
      simp only [hB] at hrun
      obtain ⟨s_b, hsb_uf, -⟩ := hInv.1 b grpb hB
      have hgrpbg : grpb ≠ g := by
        intro h
        rw [h, hgisn] at hsb_uf
        exact Option.noConfusion hsb_uf
      have hka0 : dget uf0.group_to_item_set grpb = some s_b := by
        show dget (dset uf.group_to_item_set g [it]) grpb = _
        rw [dget_dset, if_neg hgrpbg]
        exact hsb_uf
      have hkb0 : dget uf0.group_to_item_set g = some [it] := by
        show dget (dset uf.group_to_item_set g [it]) g = _
        rw [dget_dset, if_pos rfl]
      have hres0 : ∀ x, uf0.resolveTop x = uf.resolveTop x := fun _ => rfl
      have hragrpb : uf.resolveTop grpb = grpb :=
        resolveTop_of_canonical hInv.2.2.2.1 (dmem_iff_dget.mpr ⟨_, hsb_uf⟩)
      have hg1' : dget uf0.group_to_top_group grpb ≠ some g := by
        show dget uf.group_to_top_group grpb ≠ some g
        intro h
        have hd := hInv.2.1 grpb g h
        rw [hgis0] at hd
        exact Bool.noConfusion hd
      have hg2' : dget uf0.group_to_top_group g ≠ some grpb := by
        show dget uf.group_to_top_group g ≠ some grpb
        rw [hgtt0]
        simp
      have htop0 : uf0.resolveTop grpb ≠ uf0.resolveTop g := by
        rw [hres0, hres0, hragrpb, hrg]
        exact hgrpbg
      have hsa0 : dget uf0.group_to_item_set (uf0.resolveTop grpb) = some s_b := by
        rw [hres0, hragrpb]
        exact hka0
      have hsb0 : dget uf0.group_to_item_set (uf0.resolveTop g) = some [it] := by
        rw [hres0, hrg]
        exact hkb0
      obtain ⟨uf1, hrun1, hcnt1, F1, F2, F3, F4⟩ :=
        union_char hgrpbg hg1' hg2' htop0 hsa0 hsb0
      have hInv1 : StrongInv uf1 := union_strong_inv huf0
        (by simp [UnionFind.knownGroup, dmem, hka0])
        (by simp [UnionFind.knownGroup, dmem, hkb0]) htop0 hrun1
      simp only [hres0, hragrpb, hrg,
        show uf0.group_to_item_set = dset uf.group_to_item_set g [it] from rfl,
        show uf0.item_to_group = dset uf.item_to_group it g from rfl]
        at F1 F2
      have hS : dget uf1.group_to_item_set grpb = some (supdate s_b [it]) := by
        rw [F1, if_neg hgrpbg, if_pos rfl]
      have hitS : it ∈ supdate s_b [it] :=
        (mem_supdate _ _ it).mpr (Or.inr (by simp))
      rw [Option.bind_eq_some] at hrun
      obtain ⟨uf1', hu1, hrest⟩ := hrun
      rw [hrun1] at hu1
      injection hu1 with hu1
      subst hu1
      simp only [hS] at hrest
      have hs2 : dget (dset uf1.group_to_item_set grpb
          (sadd (supdate s_b [it]) it)) grpb = some (sadd (supdate s_b [it]) it) := by
        rw [dget_dset, if_pos rfl]
      simp only [hs2] at hrest
      injection hrest with h
      subst h
      have ha1 : dget uf1.item_to_group a = none := by
        rw [F2, if_neg (fun h => hita (List.mem_singleton.mp h).symm),
          dget_dset, if_neg (fun h => hita h.symm)]
        exact hA
      refine add_member_inv hInv1 hS ha1 ?_ (fun _ => rfl) (fun _ => rfl) (fun _ => rfl)
      intro x
      show dget (dset (dset uf1.group_to_item_set grpb (sadd (supdate s_b [it]) it)) grpb
        (sadd (sadd (supdate s_b [it]) it) a)) x = _
      rw [sadd_mem_self hitS]
      simp only [dget_dset]
      by_cases hx : x = grpb <;> simp [hx]
  · -- the first component has been seen: `grp` is its group
    simp only [hA] at hrun
    obtain ⟨s_grp, hsgrp, -⟩ := hInv.1 a grp hA
    have hgrpg : grp ≠ g := by
      intro h
      rw [h, hgisn] at hsgrp
      exact Option.noConfusion hsgrp
    have hka0 : dget uf0.group_to_item_set grp = some s_grp := by
      show dget (dset uf.group_to_item_set g [it]) grp = _
      rw [dget_dset, if_neg hgrpg]
      exact hsgrp
    have hkb0 : dget uf0.group_to_item_set g = some [it] := by
      show dget (dset uf.group_to_item_set g [it]) g = _
      rw [dget_dset, if_pos rfl]
    have hres0 : ∀ x, uf0.resolveTop x = uf.resolveTop x := fun _ => rfl
    have hragrp : uf.resolveTop grp = grp :=
      resolveTop_of_canonical hInv.2.2.2.1 (dmem_iff_dget.mpr ⟨_, hsgrp⟩)
    have hg1' : dget uf0.group_to_top_group grp ≠ some g := by
      show dget uf.group_to_top_group grp ≠ some g
      intro h
      have hd := hInv.2.1 grp g h
      rw [hgis0] at hd
      exact Bool.noConfusion hd
    have hg2' : dget uf0.group_to_top_group g ≠ some grp := by
      show dget uf.group_to_top_group g ≠ some grp
      rw [hgtt0]
      simp
    have htop0 : uf0.resolveTop grp ≠ uf0.resolveTop g := by
      rw [hres0, hres0, hragrp, hrg]
      exact hgrpg
    have hsa0 : dget uf0.group_to_item_set (uf0.resolveTop grp) = some s_grp := by
      rw [hres0, hragrp]
      exact hka0
    have hsb0 : dget uf0.group_to_item_set (uf0.resolveTop g) = some [it] := by
      rw [hres0, hrg]
      exact hkb0
    obtain ⟨uf1, hrun1, hcnt1, F1, F2, F3, F4⟩ :=
      union_char hgrpg hg1' hg2' htop0 hsa0 hsb0
    have hInv1 : StrongInv uf1 := union_strong_inv huf0
      (by simp [UnionFind.knownGroup, dmem, hka0])
      (by simp [UnionFind.knownGroup, dmem, hkb0]) htop0 hrun1
    simp only [hres0, hragrp, hrg,
      show uf0.group_to_item_set = dset uf.group_to_item_set g [it] from rfl,
      show uf0.item_to_group = dset uf.item_to_group it g from rfl,
      show uf0.group_to_top_group = uf.group_to_top_group from rfl,
      show uf0.top_group_to_merged_groups = uf.top_group_to_merged_groups from rfl]
      at F1 F2 F3 F4
    have hS : dget uf1.group_to_item_set grp = some (supdate s_grp [it]) := by
      rw [F1, if_neg hgrpg, if_pos rfl]
    have hitS : it ∈ supdate s_grp [it] :=
      (mem_supdate _ _ it).mpr (Or.inr (by simp))
    have hit1 : dget uf1.item_to_group it = some grp := by
      rw [F2, if_pos (by simp)]
    rcases hB : dget uf.item_to_group b with _ | grpb
    · -- branch A: only the first component seen
      simp only [hB] at hrun
      rw [Option.bind_eq_some] at hrun
      obtain ⟨uf1', hu1, hrest⟩ := hrun
      rw [hrun1] at hu1
      injection hu1 with hu1
      subst hu1
      simp only [hS] at hrest
      have hs2 : dget (dset uf1.group_to_item_set grp
          (sadd (supdate s_grp [it]) it)) grp = some (sadd (supdate s_grp [it]) it) := by
        rw [dget_dset, if_pos rfl]
      simp only [hs2] at hrest
      injection hrest with h
      subst h
      have hb1 : dget uf1.item_to_group b = none := by
        rw [F2, if_neg (fun h => hitb (List.mem_singleton.mp h).symm),
          dget_dset, if_neg (fun h => hitb h.symm)]
        exact hB
      refine add_member_inv hInv1 hS hb1 ?_ (fun _ => rfl) (fun _ => rfl) (fun _ => rfl)
      intro x
      show dget (dset (dset uf1.group_to_item_set grp (sadd (supdate s_grp [it]) it)) grp
        (sadd (sadd (supdate s_grp [it]) it) b)) x = _
      rw [sadd_mem_self hitS]
      simp only [dget_dset]
      by_cases hx : x = grp <;> simp [hx]
    · -- branches B and C: both components seen
      simp only [hB] at hrun
      by_cases hgg : grp = grpb
      · -- branch C: both items already in the same group
        rw [if_neg (not_not_intro hgg)] at hrun
        rw [Option.bind_eq_some] at hrun
        obtain ⟨uf1', hu1, hrest⟩ := hrun
        rw [hrun1] at hu1
        injection hu1 with hu1
        subst hu1
        simp only [hS] at hrest
        injection hrest with h
        subst h
        exact add_known_member_inv hInv1 hS hit1
          (fun _ => rfl) (fun _ => rfl) (fun _ => rfl) (fun _ => rfl)
      · -- branch B: the two items are in different groups
        rw [if_pos hgg] at hrun
        rw [Option.bind_eq_some] at hrun
        obtain ⟨uf1', hu1, hrest⟩ := hrun
        rw [hrun1] at hu1
        injection hu1 with hu1
        subst hu1
        rw [Option.bind_eq_some] at hrest
        obtain ⟨uf2, hu2, hrest2⟩ := hrest
        obtain ⟨s_b, hsb_uf, hmb_uf⟩ := hInv.1 b grpb hB
        have hgrpbg : grpb ≠ g := by
          intro h
          rw [h, hgisn] at hsb_uf
          exact Option.noConfusion hsb_uf
        have hs1b : dget uf1.group_to_item_set grpb = some s_b := by
          rw [F1, if_neg hgrpbg, if_neg (fun h => hgg h.symm), dget_dset, if_neg hgrpbg]
          exact hsb_uf
        have h51 := hInv1.2.2.2.1
        have hr1grp : uf1.resolveTop grp = grp :=
          resolveTop_of_canonical h51 (dmem_iff_dget.mpr ⟨_, hS⟩)
        have hr1grpb : uf1.resolveTop grpb = grpb :=
          resolveTop_of_canonical h51 (dmem_iff_dget.mpr ⟨_, hs1b⟩)
        have hg1'' : dget uf1.group_to_top_group grp ≠ some grpb := by
          intro h
          exact hgg (h51 grp (dmem_iff_dget.mpr ⟨_, hS⟩) grpb h).symm
        have hg2'' : dget uf1.group_to_top_group grpb ≠ some grp := by
          intro h
          exact hgg (h51 grpb (dmem_iff_dget.mpr ⟨_, hs1b⟩) grp h)
        have htop2 : uf1.resolveTop grp ≠ uf1.resolveTop grpb := by
          rw [hr1grp, hr1grpb]
          exact hgg
        have hsa2 : dget uf1.group_to_item_set (uf1.resolveTop grp) =
            some (supdate s_grp [it]) := by
          rw [hr1grp]
          exact hS
        have hsb2 : dget uf1.group_to_item_set (uf1.resolveTop grpb) = some s_b := by
          rw [hr1grpb]
          exact hs1b
        obtain ⟨uf2', hrun2, hcnt2, G1, G2, G3, G4⟩ :=
          union_char hgg hg1'' hg2'' htop2 hsa2 hsb2
        rw [hu2] at hrun2
        injection hrun2 with heq2
        subst heq2
        have hInv2 : StrongInv uf2 := union_strong_inv hInv1
          (by simp [UnionFind.knownGroup, dmem, hS])
          (by simp [UnionFind.knownGroup, dmem, hs1b]) htop2 hu2
        simp only [hr1grp, hr1grpb] at G1 G2 G3 G4
        have ha2 : dget uf2.item_to_group a = some grp := by
          rw [G2]
          by_cases hm : a ∈ s_b
          · rw [if_pos hm]
          · rw [if_neg hm, F2, if_neg (fun h => hita (List.mem_singleton.mp h).symm),
              dget_dset, if_neg (fun h => hita h.symm)]
            exact hA
        simp only [ha2] at hrest2
        have hab : a ≠ b := by
          intro h
          rw [h, hB] at hA
          injection hA with hA
          exact hgg hA.symm
        have ha3 : dget (dset uf2.item_to_group b grp) a = some grp := by
          rw [dget_dset, if_neg hab]
          exact ha2
        simp only [ha3] at hrest2
        have hgis2 : dget uf2.group_to_item_set grp =
            some (supdate (supdate s_grp [it]) s_b) := by
          rw [G1, if_neg hgg, if_pos rfl]
        simp only [hgis2] at hrest2
        injection hrest2 with h
        subst h
        have hit2mem : it ∈ supdate (supdate s_grp [it]) s_b :=
          (mem_supdate _ _ it).mpr (Or.inl hitS)
        have hb2 : dget uf2.item_to_group b = some grp := by
          rw [G2, if_pos hmb_uf]
        refine strong_inv_of_equiv ?_ hInv2
        refine ⟨?_, ?_, fun _ => rfl, fun _ => rfl⟩
        · intro x
          show dget uf2.group_to_item_set x = dget (dset uf2.group_to_item_set grp
            (sadd (supdate (supdate s_grp [it]) s_b) it)) x
          rw [sadd_mem_self hit2mem, dset_same_pointwise hgis2 x]
        · intro j
          show dget uf2.item_to_group j = dget (dset uf2.item_to_group b grp) j
          rw [dset_same_pointwise hb2 j]

theorem strong_inv_init : StrongInv (UnionFind.init I G) :=
  ⟨fun _ _ h => Option.noConfusion h, fun _ _ h => Option.noConfusion h,
   fun _ _ _ h _ => Option.noConfusion h, fun _ _ _ h => Option.noConfusion h,
   fun _ _ _ h _ => Option.noConfusion h, fun _ _ h => Option.noConfusion h⟩

/-- The claimed invariants follow from the strengthened inductive one; in
particular item-set disjointness (Inv3) follows from the pointed-back map. -/
theorem ufInvariants_of_strong {uf : UnionFind I G} (h : StrongInv uf) :
    UFInvariants uf := by
  obtain ⟨h1, h2, h4, -, -, -⟩ := h
  refine ⟨h1, h2, ?_⟩
  intro i g1 g2 s1 s2 hs1 hs2 hm1 hm2
  have e1 := h4 g1 s1 i hs1 hm1
  have e2 := h4 g2 s2 i hs2 hm2
  rw [e1] at e2
  injection e2

/-- Running any valid operation sequence from an invariant-satisfying state
preserves the strengthened invariant. -/
theorem strong_inv_runUFOps {uf uf' : UnionFind I G} {ops : List (UFOp I G)}
    (hInv : StrongInv uf) (hvalid : validUFOps uf ops = true)
    (hrun : runUFOps uf ops = some uf') : StrongInv uf' := by
  induction ops generalizing uf with
  | nil =>
    simp only [runUFOps] at hrun
    injection hrun with h
    exact h ▸ hInv
  | cons op rest ih =>
    rcases happ : applyUFOp uf op with _ | uf1
    · simp only [runUFOps, happ] at hrun
      exact Option.noConfusion hrun
    · simp only [runUFOps, happ] at hrun
      simp only [validUFOps, happ, Bool.and_eq_true] at hvalid
      obtain ⟨hv1, hv2⟩ := hvalid
      refine ih ?_ hv2 hrun
      cases op with
      | add_item_dedup g i =>
        exact add_item_dedup_strong_inv hInv happ
      | add_item_M2M g a b item =>
        simp only [validUFOp, Bool.and_eq_true, Bool.not_eq_true'] at hv1
        obtain ⟨⟨⟨⟨hm1, hm2⟩, hm3⟩, hm4⟩, hm5⟩ := hv1
        have hgttn : dget uf.group_to_top_group g = none := by
          rcases hv : dget uf.group_to_top_group g with _ | v
          · rfl
          · rw [dmem, hv] at hm2
            simp at hm2
        have hitn : dget uf.item_to_group item = none := by
          rcases hv : dget uf.item_to_group item with _ | v
          · rfl
          · rw [hv] at hm3
            simp at hm3
        exact add_item_M2M_strong_inv hInv hm1 hgttn hitn
          (of_decide_eq_false hm4) (of_decide_eq_false hm5) happ
      | union g1 g2 =>
        simp only [validUFOp, Bool.and_eq_true, Bool.not_eq_true'] at hv1
        obtain ⟨⟨hk1, hk2⟩, hne⟩ := hv1
        exact union_strong_inv hInv hk1 hk2 (of_decide_eq_false hne) happ

/-- **Claim C8 (amended).** After any sequence of UnionFind operations in
which `add_item_M2M` is called with a fresh group name and a freshly formed
tuple item distinct from its component items (as `add_csv` does), and
`union` is called on known groups with distinct canonical tops
(`add_item_dedup` is unrestricted), the resulting structure satisfies the
three claimed invariants: every recorded item is a member of its group's
item set, every alias maps to a canonical group, and no item belongs to two
distinct canonical groups' item sets. -/
theorem unionfind_invariants_of_valid_ops {uf' : UnionFind I G}
    {ops : List (UFOp I G)}
    (hrun : runUFOps (UnionFind.init I G) ops = some uf')
    (hvalid : validUFOps (UnionFind.init I G) ops = true) : UFInvariants uf' :=
  ufInvariants_of_strong (strong_inv_runUFOps strong_inv_init hvalid hrun)

end UnionFindInv

/-- Witness for claim C8: a concrete valid operation sequence whose final
state satisfies the invariants. -/
theorem unionfind_invariants_of_valid_ops_witness :
    validUFOps (UnionFind.init MItem Nat) c8w_ops = true ∧
    UFInvariants c8w_state :=
  ⟨by decide,
    @unionfind_invariants_of_valid_ops MItem Nat _ _ c8w_state c8w_ops
      (by rfl) (by decide)⟩

/-- **Claim C8, counterexample.** Running two `add_item_M2M` calls that
reuse group name 0 (as the claim's unrestricted reading allows) yields a
state in which item `id 1` is recorded in `item_to_group` with group 0 but
is not a member of group 0's item set, so the claimed invariants fail. -/
theorem unionfind_invariants_counterexample :
    runUFOps (UnionFind.init MItem Nat) c8_ops = some c8_state ∧
    dget c8_state.item_to_group (MItem.id 1) = some 0 ∧
    dget c8_state.group_to_item_set 0 =
      some [MItem.tup 3 4 0, MItem.id 3, MItem.id 4] ∧
    MItem.id 1 ∉ [MItem.tup 3 4 0, MItem.id 3, MItem.id 4] ∧
    ¬ UFInvariants c8_state := by
  refine ⟨rfl, rfl, rfl, by decide, ?_⟩
  rintro ⟨h1, -, -⟩
  obtain ⟨s, hs, hm⟩ := h1 (MItem.id 1) 0 rfl
  rw [show dget c8_state.group_to_item_set 0 =
    some [MItem.tup 3 4 0, MItem.id 3, MItem.id 4] from rfl] at hs
  injection hs with hs
  subst hs
  revert hm
  decide

/-! ## Claim C9: dedup singleton groups and the written crosswalk -/

section DedupResolution

variable {I : Type} [DecidableEq I]

theorem groupBound_mono {uf : UnionFind I Nat} {n m : Nat}
    (h : GroupBound uf n) (hnm : n ≤ m) : GroupBound uf m :=
  fun g hg => h g (le_trans hnm hg)

/-- `union` relabels only the moved items: an item absent from every group
set (and from `item_to_group`) stays absent from `item_to_group`. -/
theorem union_itg_none {uf uf' : UnionFind I Nat} {ga gb : Nat} {j : I}
    (hrun : uf.union ga gb = some uf')
    (hnotin : ∀ g s, dget uf.group_to_item_set g = some s → j ∉ s)
    (hj : dget uf.item_to_group j = none) : dget uf'.item_to_group j = none := by
  by_cases h0 : ga = gb
  · have he : uf.union ga gb = some uf := by
      simp only [UnionFind.union, if_pos h0]
    rw [he] at hrun
    injection hrun with h
    exact h ▸ hj
  by_cases h1 : dget uf.group_to_top_group ga = some gb
  · have he : uf.union ga gb = some uf := by
      simp only [UnionFind.union, if_neg h0, if_pos h1]
    rw [he] at hrun
    injection hrun with h
    exact h ▸ hj
  by_cases h2 : dget uf.group_to_top_group gb = some ga
  · have he : uf.union ga gb = some uf := by
      simp only [UnionFind.union, if_neg h0, if_neg h1, if_pos h2]
    rw [he] at hrun
    injection hrun with h
    exact h ▸ hj
  · simp only [UnionFind.union, if_neg h0, if_neg h1, if_neg h2] at hrun
    rcases hsb : dget uf.group_to_item_set
        ((dget uf.group_to_top_group gb).getD gb) with _ | sb
    · simp only [hsb] at hrun
      exact Option.noConfusion hrun
    · simp only [hsb] at hrun
      rcases hsa : dget uf.group_to_item_set
          ((dget uf.group_to_top_group ga).getD ga) with _ | sa
      · simp only [hsa] at hrun
        exact Option.noConfusion hrun
      · simp only [hsa] at hrun
        injection hrun with h
        subst h
        show dget (sb.foldl (fun m i => dset m i
          ((dget uf.group_to_top_group ga).getD ga)) uf.item_to_group) j = none
        rw [dget_foldl_dset_const, if_neg (hnotin _ sb hsb)]
        exact hj

/-- `add_item_dedup` leaves an unrelated unseen item unseen. -/
theorem add_item_dedup_itg_none {uf uf' : UnionFind I Nat} {g : Nat} {i j : I}
    (hInv : StrongInv uf) (hrun : uf.add_item_dedup g i = some uf')
    (hji : j ≠ i) (hj : dget uf.item_to_group j = none) :
    dget uf'.item_to_group j = none := by
  have hnotin : ∀ g0 s, dget uf.group_to_item_set g0 = some s → j ∉ s := by
    intro g0 s hs hm
    have h4 := hInv.2.2.1 g0 s j hs hm
    rw [hj] at h4
    exact Option.noConfusion h4
  unfold UnionFind.add_item_dedup at hrun
  rcases hitg : dget uf.item_to_group i with _ | ig
  · simp only [hitg] at hrun
    rcases hgtt : dget uf.group_to_top_group g with _ | tg
    · simp only [hgtt] at hrun
      rcases hgis : dget uf.group_to_item_set g with _ | s
      · simp only [hgis] at hrun
        injection hrun with h
        subst h
        show dget (dset uf.item_to_group i g) j = none
        rw [dget_dset, if_neg hji]
        exact hj
      · simp only [hgis] at hrun
        injection hrun with h
        subst h
        show dget (dset uf.item_to_group i g) j = none
        rw [dget_dset, if_neg hji]
        exact hj
    · simp only [hgtt] at hrun
      rcases hgtg : dget uf.group_to_item_set tg with _ | s
      · simp only [hgtg] at hrun
        exact Option.noConfusion hrun
      · simp only [hgtg] at hrun
        injection hrun with h
        subst h
        show dget (dset uf.item_to_group i tg) j = none
        rw [dget_dset, if_neg hji]
        exact hj
  · simp only [hitg] at hrun
    by_cases hgi : g = ig
    · rw [if_pos hgi] at hrun
      injection hrun with h
      exact h ▸ hj
    · rw [if_neg hgi] at hrun
      by_cases hmem : dmem uf.group_to_item_set g = true
      · rw [if_pos hmem] at hrun
        rw [Option.map_eq_some'] at hrun
        obtain ⟨uf1, hu, he⟩ := hrun
        subst he
        have hres := union_itg_none hu hnotin hj
        exact hres
      · rw [if_neg hmem] at hrun
        rcases hgtt : dget uf.group_to_top_group g with _ | tg
        · simp only [hgtt] at hrun
          rw [Option.map_eq_some'] at hrun
          obtain ⟨uf2, hu, he⟩ := hrun
          subst he
          have hres : dget uf2.item_to_group j = none := by
            refine union_itg_none hu ?_ hj
            intro g0 s hs hm
            have hs' : dget (dset uf.group_to_item_set g [i]) g0 = some s := hs
            rw [dget_dset] at hs'
            by_cases hg0 : g0 = g
            · rw [if_pos hg0] at hs'
              injection hs' with hs'
              subst hs'
              exact hji (by simpa using hm)
            · rw [if_neg hg0] at hs'
              exact hnotin g0 s hs' hm
          exact hres
        · simp only [hgtt] at hrun
          by_cases htg : tg = ig
          · rw [if_neg (not_not_intro htg)] at hrun
            injection hrun with h
            subst h
            exact hj
          · rw [if_pos htg] at hrun
            rw [Option.map_eq_some'] at hrun
            obtain ⟨uf1, hu, he⟩ := hrun
            subst he
            have hres := union_itg_none hu hnotin hj
            exact hres

/-- A `union` of a known group into a canonical group touches no group key
at or above the bound. -/
theorem union_canonical_bound {uf uf' : UnionFind I Nat} {n : Nat} {ga gb : Nat}
    (hInv : StrongInv uf) (hb : GroupBound uf n) (hka : uf.knownGroup ga = true)
    (hkb : dmem uf.group_to_item_set gb = true)
    (hrun : uf.union ga gb = some uf') : GroupBound uf' n := by
  by_cases h0 : ga = gb
  · have he : uf.union ga gb = some uf := by
      simp only [UnionFind.union, if_pos h0]
    rw [he] at hrun
    injection hrun with h
    exact h ▸ hb
  by_cases hga1 : dget uf.group_to_top_group ga = some gb
  · have he : uf.union ga gb = some uf := by
      simp only [UnionFind.union, if_neg h0, if_pos hga1]
    rw [he] at hrun
    injection hrun with h
    exact h ▸ hb
  by_cases hga2 : dget uf.group_to_top_group gb = some ga
  · have he : uf.union ga gb = some uf := by
      simp only [UnionFind.union, if_neg h0, if_neg hga1, if_pos hga2]
    rw [he] at hrun
    injection hrun with h
    exact h ▸ hb
  · obtain ⟨sa, hsa⟩ := dmem_iff_dget.mp (known_top_canonical hInv hka)
    have hkbk : uf.knownGroup gb = true := by
      simp [UnionFind.knownGroup, hkb]
    obtain ⟨sb, hsb⟩ := dmem_iff_dget.mp (known_top_canonical hInv hkbk)
    have h5 := hInv.2.2.2.1
    have h6 := hInv.2.2.2.2.1
    have hrb : uf.resolveTop gb = gb := resolveTop_of_canonical h5 hkb
    have htop : uf.resolveTop ga ≠ uf.resolveTop gb := by
      rw [hrb]
      intro hra
      rcases hga : dget uf.group_to_top_group ga with _ | c
      · apply h0
        unfold UnionFind.resolveTop at hra
        rw [hga] at hra
        simpa using hra
      · apply hga1
        unfold UnionFind.resolveTop at hra
        rw [hga] at hra
        simp only [Option.getD_some] at hra
        rw [hga, hra]
    obtain ⟨uf'', hrun'', -, hgisF, -, hgttF, -⟩ :=
      union_char h0 hga1 hga2 htop hsa hsb
    rw [hrun] at hrun''
    injection hrun'' with heq
    subst heq
    intro g' hg'
    obtain ⟨o1, o2⟩ := hb g' hg'
    have hTb' : g' ≠ uf.resolveTop gb := by
      intro h
      rw [h, hsb] at o1
      exact Option.noConfusion o1
    have hTa' : g' ≠ uf.resolveTop ga := by
      intro h
      rw [h, hsa] at o1
      exact Option.noConfusion o1
    have hgb' : g' ≠ gb := by
      intro h
      obtain ⟨v, hv⟩ := dmem_iff_dget.mp hkb
      rw [h, hv] at o1
      exact Option.noConfusion o1
    constructor
    · rw [hgisF, if_neg hTb', if_neg hTa']
      exact o1
    · rw [hgttF]
      have hcond : ¬(g' ∈ (dget uf.top_group_to_merged_groups
          (uf.resolveTop gb)).getD [] ∨ g' = uf.resolveTop gb ∨ g' = gb) := by
        rintro (hR | h | h)
        · rcases htg : dget uf.top_group_to_merged_groups (uf.resolveTop gb) with _ | sR
          · rw [htg] at hR
            simp at hR
          · rw [htg] at hR
            simp only [Option.getD_some] at hR
            have := h6 _ sR g' htg hR
            rw [o2] at this
            exact Option.noConfusion this
        · exact hTb' h
        · exact hgb' h
      rw [if_neg hcond]
      exact o2

/-- `add_item_dedup` with a group name below the bound touches no group key
at or above the bound. -/
theorem add_item_dedup_bound {uf uf' : UnionFind I Nat} {n g : Nat} {i : I}
    (hInv : StrongInv uf) (hb : GroupBound uf n) (hg : g < n)
    (hrun : uf.add_item_dedup g i = some uf') : GroupBound uf' n := by
  unfold UnionFind.add_item_dedup at hrun
  rcases hitg : dget uf.item_to_group i with _ | ig
  · simp only [hitg] at hrun
    rcases hgtt : dget uf.group_to_top_group g with _ | tg
    · simp only [hgtt] at hrun
      rcases hgis : dget uf.group_to_item_set g with _ | s
      · simp only [hgis] at hrun
        injection hrun with h
        subst h
        intro g' hg'
        obtain ⟨o1, o2⟩ := hb g' hg'
        refine ⟨?_, o2⟩
        show dget (dset uf.group_to_item_set g [i]) g' = none
        rw [dget_dset, if_neg (by rintro rfl; exact absurd (Nat.lt_of_lt_of_le hg hg') (lt_irrefl _))]
        exact o1
      · simp only [hgis] at hrun
        injection hrun with h
        subst h
        intro g' hg'
        obtain ⟨o1, o2⟩ := hb g' hg'
        refine ⟨?_, o2⟩
        show dget (dset uf.group_to_item_set g (sadd s i)) g' = none
        rw [dget_dset, if_neg (by rintro rfl; exact absurd (Nat.lt_of_lt_of_le hg hg') (lt_irrefl _))]
        exact o1
    · simp only [hgtt] at hrun
      rcases hgtg : dget uf.group_to_item_set tg with _ | s
      · simp only [hgtg] at hrun
        exact Option.noConfusion hrun
      · simp only [hgtg] at hrun
        injection hrun with h
        subst h
        intro g' hg'
        obtain ⟨o1, o2⟩ := hb g' hg'
        refine ⟨?_, o2⟩
        show dget (dset uf.group_to_item_set tg (sadd s i)) g' = none
        have htg' : g' ≠ tg := by
          intro h
          rw [h, hgtg] at o1
          exact Option.noConfusion o1
        rw [dget_dset, if_neg htg']
        exact o1
  · simp only [hitg] at hrun
    by_cases hgi : g = ig
    · rw [if_pos hgi] at hrun
      injection hrun with h
      exact h ▸ hb
    · rw [if_neg hgi] at hrun
      by_cases hmem : dmem uf.group_to_item_set g = true
      · rw [if_pos hmem] at hrun
        rw [Option.map_eq_some'] at hrun
        obtain ⟨uf1, hu, he⟩ := hrun
        subst he
        have hka : uf.knownGroup ig = true := by
          obtain ⟨s0, hs0, -⟩ := hInv.1 i ig hitg
          simp [UnionFind.knownGroup, dmem, hs0]
        have hres := union_canonical_bound hInv hb hka hmem hu
        exact hres
      · rw [if_neg hmem] at hrun
        rcases hgtt : dget uf.group_to_top_group g with _ | tg
        · simp only [hgtt] at hrun
          rw [Option.map_eq_some'] at hrun
          obtain ⟨uf2, hu, he⟩ := hrun
          subst he
          obtain ⟨-, P1, -, P3⟩ := dedup_new_group_union_inv hInv hitg hgi
            (by simpa using hmem) hgtt hu rfl rfl rfl rfl
          intro g' hg'
          obtain ⟨o1, o2⟩ := hb g' hg'
          refine ⟨?_, ?_⟩
          · show dget uf2.group_to_item_set g' = none
            rw [P1]
            exact o1
          · show dget uf2.group_to_top_group g' = none
            rw [P3, if_neg (by rintro rfl; exact absurd (Nat.lt_of_lt_of_le hg hg') (lt_irrefl _))]
            exact o2
        · simp only [hgtt] at hrun
          by_cases htg : tg = ig
          · rw [if_neg (not_not_intro htg)] at hrun
            injection hrun with h
            subst h
            exact hb
          · rw [if_pos htg] at hrun
            rw [Option.map_eq_some'] at hrun
            obtain ⟨uf1, hu, he⟩ := hrun
            subst he
            have hka : uf.knownGroup tg = true := by
              have h2 := hInv.2.1 g tg hgtt
              simp [UnionFind.knownGroup, h2]
            have hkb : dmem uf.group_to_item_set ig = true := by
              obtain ⟨s0, hs0, -⟩ := hInv.1 i ig hitg
              simp [dmem, hs0]
            have hres := union_canonical_bound hInv hb hka hkb hu
            exact hres

/-- When `add_item_dedup` is called with a completely fresh group name (as
both dedup loops do with `rowid`), existing group sets are untouched,
unrelated items keep their groups, and a fresh item gets the fresh group as
a singleton. -/
theorem add_item_dedup_fresh_group_char {uf uf' : UnionFind I Nat} {n : Nat} {i : I}
    (hInv : StrongInv uf)
    (hgisn : dget uf.group_to_item_set n = none)
    (hgttn : dget uf.group_to_top_group n = none)
    (hrun : uf.add_item_dedup n i = some uf') :
    (∀ gx sx, dget uf.group_to_item_set gx = some sx →
      dget uf'.group_to_item_set gx = some sx) ∧
    (∀ j, j ≠ i → dget uf'.item_to_group j = dget uf.item_to_group j) ∧
    (dget uf.item_to_group i = none → dget uf'.group_to_item_set n = some [i]) := by
  unfold UnionFind.add_item_dedup at hrun
  rcases hitg : dget uf.item_to_group i with _ | ig
  · simp only [hitg, hgttn, hgisn] at hrun
    injection hrun with h
    subst h
    refine ⟨?_, ?_, fun _ => ?_⟩
    · intro gx sx hs
      show dget (dset uf.group_to_item_set n [i]) gx = some sx
      rw [dget_dset, if_neg (fun h => by rw [h, hgisn] at hs; exact Option.noConfusion hs)]
      exact hs
    · intro j hj
      show dget (dset uf.item_to_group i n) j = dget uf.item_to_group j
      rw [dget_dset, if_neg hj]
    · show dget (dset uf.group_to_item_set n [i]) n = some [i]
      rw [dget_dset, if_pos rfl]
  · simp only [hitg] at hrun
    have hgi : ¬(n = ig) := by
      obtain ⟨s0, hs0, -⟩ := hInv.1 i ig hitg
      intro h
      rw [← h, hgisn] at hs0
      exact Option.noConfusion hs0
    rw [if_neg hgi] at hrun
    have hmemf : ¬(dmem uf.group_to_item_set n = true) := by
      rw [dmem, hgisn]
      simp
    rw [if_neg hmemf] at hrun
    simp only [hgttn] at hrun
    rw [Option.map_eq_some'] at hrun
    obtain ⟨uf2, hu, he⟩ := hrun
    subst he
    obtain ⟨-, P1, P2, -⟩ := dedup_new_group_union_inv hInv hitg hgi
      (by rw [dmem, hgisn]; rfl) hgttn hu rfl rfl rfl rfl
    refine ⟨?_, ?_, fun hc => ?_⟩
    · intro gx sx hs
      show dget uf2.group_to_item_set gx = some sx
      rw [P1]
      exact hs
    · intro j hj
      show dget uf2.item_to_group j = dget uf.item_to_group j
      exact P2 j
    · exact Option.noConfusion hc

/-- The singleton loop: existing group sets are preserved, and a
still-unmatched table id `x` ends in a singleton group of its own. -/
theorem add_table_ids_main (x : I) :
    ∀ (ids : List I) (uf : UnionFind I Nat) (n : Nat) (uf' : UnionFind I Nat),
    StrongInv uf → GroupBound uf n → add_table_ids uf ids n = some uf' →
    (∀ gx sx, dget uf.group_to_item_set gx = some sx →
      dget uf'.group_to_item_set gx = some sx) ∧
    (dget uf.item_to_group x = none → x ∈ ids →
      ∃ g, dget uf'.group_to_item_set g = some [x]) := by
  intro ids
  induction ids with
  | nil =>
    intro uf n uf' hInv hb hrun
    simp only [add_table_ids] at hrun
    injection hrun with h
    subst h
    exact ⟨fun gx sx hs => hs, fun _ hx => absurd hx (List.not_mem_nil x)⟩
  | cons i rest ih =>
    intro uf n uf' hInv hb hrun
    simp only [add_table_ids] at hrun
    rcases hstep : uf.add_item_dedup n i with _ | uf1
    · simp only [hstep] at hrun
      exact Option.noConfusion hrun
    · simp only [hstep] at hrun
      obtain ⟨hgn, hgtn⟩ := hb n (le_refl n)
      obtain ⟨C1, C2, C3⟩ := add_item_dedup_fresh_group_char hInv hgn hgtn hstep
      have hInv1 := add_item_dedup_strong_inv hInv hstep
      have hb1 : GroupBound uf1 (n + 1) :=
        add_item_dedup_bound hInv (groupBound_mono hb (Nat.le_succ n))
          (Nat.lt_succ_self n) hstep
      obtain ⟨ih1, ih2⟩ := ih uf1 (n + 1) uf' hInv1 hb1 hrun
      refine ⟨fun gx sx hs => ih1 gx sx (C1 gx sx hs), ?_⟩
      intro hfree hx
      by_cases hxi : x = i
      · have h1 : dget uf1.group_to_item_set n = some [x] := by
          rw [hxi]
          exact C3 (hxi ▸ hfree)
        exact ⟨n, ih1 n [x] h1⟩
      · have hxr : x ∈ rest := by
          rcases List.mem_cons.mp hx with h | h
          · exact absurd h hxi
          · exact h
        refine ih2 ?_ hxr
        rw [C2 x hxi]
        exact hfree

/-- The pair loop of `add_csv`: the invariant and the rowid bound are
maintained, and an id appearing in no accepted pair stays unseen. -/
theorem add_csv_dedup_main (x : I) :
    ∀ (pairs : List (I × I)) (uf : UnionFind I Nat) (n : Nat)
      (out : UnionFind I Nat × Nat),
    StrongInv uf → GroupBound uf n → add_csv_dedup uf pairs n = some out →
    StrongInv out.1 ∧ GroupBound out.1 out.2 ∧
    (dget uf.item_to_group x = none → (∀ p ∈ pairs, x ≠ p.1 ∧ x ≠ p.2) →
      dget out.1.item_to_group x = none) := by
  intro pairs
  induction pairs with
  | nil =>
    intro uf n out hInv hb hrun
    simp only [add_csv_dedup] at hrun
    injection hrun with h
    subst h
    exact ⟨hInv, hb, fun hf _ => hf⟩
  | cons p rest ih =>
    intro uf n out hInv hb hrun
    obtain ⟨ida, idb⟩ := p
    simp only [add_csv_dedup] at hrun
    rcases h1 : uf.add_item_dedup n ida with _ | uf1
    · simp only [h1] at hrun
      exact Option.noConfusion hrun
    · simp only [h1] at hrun
      rcases h2 : uf1.add_item_dedup n idb with _ | uf2
      · simp only [h2] at hrun
        exact Option.noConfusion hrun
      · simp only [h2] at hrun
        have hInv1 := add_item_dedup_strong_inv hInv h1
        have hb1 : GroupBound uf1 (n + 1) :=
          add_item_dedup_bound hInv (groupBound_mono hb (Nat.le_succ n))
            (Nat.lt_succ_self n) h1
        have hInv2 := add_item_dedup_strong_inv hInv1 h2
        have hb2 : GroupBound uf2 (n + 1) :=
          add_item_dedup_bound hInv1 hb1 (Nat.lt_succ_self n) h2
        obtain ⟨r1, r2, r3⟩ := ih uf2 (n + 1) out hInv2 hb2 hrun
        refine ⟨r1, r2, ?_⟩
        intro hf hnp
        have hna := hnp (ida, idb) (List.mem_cons_self _ _)
        refine r3 ?_ (fun q hq => hnp q (List.mem_cons_of_mem _ hq))
        have hf1 := add_item_dedup_itg_none hInv h1 hna.1 hf
        exact add_item_dedup_itg_none hInv1 h2 hna.2 hf1

/-- An item of any stored group appears in the rows written by the dedup
branch of `write_to_csv` (stated over `enumFrom` for the induction). -/
theorem mem_write_enumFrom {g : Nat} {s : List I} {i : I} (hm : i ∈ s) :
    ∀ (d : List (Nat × List I)) (n : Nat), (g, s) ∈ d →
    ∃ ch, (i, ch) ∈ ((List.enumFrom n d).map
      fun p => p.2.2.map fun item => (item, p.1)).flatten := by
  intro d
  induction d with
  | nil =>
    intro n h
    exact absurd h (List.not_mem_nil _)
  | cons hd t iht =>
    intro n h
    rcases List.mem_cons.mp h with heq | ht
    · refine ⟨n, ?_⟩
      subst heq
      show (i, n) ∈ ((List.enumFrom n ((g, s) :: t)).map
        fun p => p.2.2.map fun item => (item, p.1)).flatten
      simp only [List.enumFrom, List.map]
      refine List.mem_flatten.mpr ⟨s.map fun item => (item, n), ?_, ?_⟩
      · exact List.mem_cons_self _ _
      · exact List.mem_map.mpr ⟨i, hm, rfl⟩
    · obtain ⟨ch, hch⟩ := iht (n + 1) ht
      refine ⟨ch, ?_⟩
      simp only [List.enumFrom, List.map]
      rcases List.mem_flatten.mp hch with ⟨l, hl, hil⟩
      exact List.mem_flatten.mpr ⟨l, List.mem_cons_of_mem _ hl, hil⟩

/-- **Claim C9 (amended).** In dedup resolution, every id of the source
table that appears in no accepted pair receives its own singleton group,
and — contrary to the claim that the crosswalk omits singletons — that id
is written to the crosswalk (the dedup branch of `write_to_csv` writes one
row per item of every group, singleton groups included). -/
theorem dedup_singletons_in_crosswalk {pairs : List (I × I)}
    {table_ids : List I} {x : I} {groups : List (Nat × List I)}
    (hrun : mtom_or_dedup_matching pairs table_ids = some groups)
    (hx : x ∈ table_ids)
    (hnp : ∀ p ∈ pairs, x ≠ p.1 ∧ x ≠ p.2) :
    (∃ g, dget groups g = some [x]) ∧
    ∃ ch, (x, ch) ∈ write_to_csv_dedup groups := by
  unfold mtom_or_dedup_matching at hrun
  rcases hcsv : add_csv_dedup (UnionFind.init I Nat) pairs 0 with _ | out
  · simp only [hcsv] at hrun
    exact Option.noConfusion hrun
  · obtain ⟨uf, rowid⟩ := out
    simp only [hcsv] at hrun
    rcases htbl : add_table_ids uf table_ids rowid with _ | uf2
    · simp only [htbl] at hrun
      exact Option.noConfusion hrun
    · simp only [htbl] at hrun
      injection hrun with h
      subst h
      have hbinit : GroupBound (UnionFind.init I Nat) 0 := fun g _ => ⟨rfl, rfl⟩
      obtain ⟨hInv, hb, hfree⟩ :=
        add_csv_dedup_main x pairs _ 0 (uf, rowid) strong_inv_init hbinit hcsv
      obtain ⟨-, hsing⟩ := add_table_ids_main x table_ids uf rowid uf2 hInv hb htbl
      obtain ⟨g, hg⟩ := hsing (hfree rfl hnp) hx
      refine ⟨⟨g, hg⟩, ?_⟩
      exact mem_write_enumFrom (by simp) uf2.group_to_item_set 0 (dget_some_mem hg)

end DedupResolution

/-- Witness for claim C9: with one accepted pair `(1, 2)` over the table
`[1, 2, 3]`, the unmatched id `3` gets singleton group `[3]` and row
`(3, 1)` in the crosswalk. -/
theorem dedup_singletons_in_crosswalk_witness :
    mtom_or_dedup_matching [((1 : Nat), (2 : Nat))] [1, 2, 3] =
      some [(0, [1, 2]), (3, [3])] ∧
    ((∃ g, dget [((0 : Nat), [(1 : Nat), 2]), (3, [3])] g = some [3]) ∧
      ∃ ch, ((3 : Nat), ch) ∈ write_to_csv_dedup [(0, [1, 2]), (3, [3])]) :=
  ⟨by rfl,
    @dedup_singletons_in_crosswalk Nat _ [((1 : Nat), (2 : Nat))] [1, 2, 3] 3
      [(0, [1, 2]), (3, [3])] (by rfl) (by decide) (by decide)⟩

/-- **Claim C9, counterexample.** The concrete run with accepted pair
`(1, 2)` over source table `[1, 2, 3]`: id `3` is matched to no other id,
yet the written crosswalk contains the row `(3, 1)` — the crosswalk does
not omit singleton groups. -/
theorem dedup_crosswalk_counterexample :
    crosswalk_dedup [((1 : Nat), (2 : Nat))] [1, 2, 3] =
      some [(1, 0), (2, 0), (3, 1)] ∧
    (∀ p ∈ [((1 : Nat), (2 : Nat))], (3 : Nat) ≠ p.1 ∧ (3 : Nat) ≠ p.2) ∧
    ((3 : Nat), 1) ∈ [((1 : Nat), 0), (2, 0), (3, 1)] :=
  ⟨by rfl, by decide, by decide⟩

/-! ## Claim C6: dedup self-exclusion (corrected — the idx comparison is on
TEXT, so the emitted order is lexicographic, not numeric) -/

theorem TV.ofBool_eq_t {b : Bool} : TV.ofBool b = TV.t ↔ b = true := by
  cases b <;> simp [TV.ofBool]

theorem TV.not3_eq_t {x : TV} : x.not3 = TV.t ↔ x = TV.f := by
  cases x <;> simp [TV.not3]

/-- C6 amended.  Every candidate pair emitted by a dedup blocking pass
(ground-truth-ID passes included — `find_pass_candidates` appends the same
two conditions for every dedup pass) satisfies `a.idx < b.idx` in the
lexicographic order of the decimal TEXT representations (hence
`idx_a ≠ idx_b`) and `indv_id_a ≠ indv_id_b`; but not necessarily
`idx_a < idx_b` numerically, because every imported column, `idx`
included, is stored as TEXT — see the counterexample. -/
theorem dedup_pair_exclusion (p : Pass) (past : List TV) (a b : DedupRec)
    (h : emitted_dedup p past a b) :
    Nat.repr a.idx < Nat.repr b.idx ∧ a.idx ≠ b.idx ∧ a.indv_id ≠ b.indv_id := by
  unfold emitted_dedup dedup_join_cond at h
  rw [TV.and3_eq_t] at h
  obtain ⟨h1, hne⟩ := h
  rw [TV.and3_eq_t] at h1
  obtain ⟨_, hlt⟩ := h1
  have hdata : (Nat.repr a.idx).data < (Nat.repr b.idx).data := by
    unfold sql_text_lt at hlt
    simpa using TV.ofBool_eq_t.mp hlt
  have hlt' : Nat.repr a.idx < Nat.repr b.idx := by
    rw [String.lt_iff_toList_lt]
    exact hdata
  refine ⟨hlt', ?_, ?_⟩
  · intro heq
    rw [heq] at hdata
    exact lt_irrefl _ hdata
  · unfold sql_ne at hne
    have hf : sql_eq a.indv_id b.indv_id = TV.f := TV.not3_eq_t.mp hne
    unfold sql_eq at hf
    rcases ha : a.indv_id with _ | x <;> rcases hb : b.indv_id with _ | y <;>
      rw [ha, hb] at hf
    · exact absurd hf (by simp)
    · exact absurd hf (by simp)
    · exact absurd hf (by simp)
    · intro heq
      injection heq with hxy
      rw [hxy] at hf
      simp [TV.ofBool] at hf

/-- C6 counterexample.  Two records with dense indices 10 and 2 that share
a blocking value and have different individual ids: the TEXT comparison
`'10' < '2'` is true, so the pair is emitted with `idx_a = 10 > 2 = idx_b`,
violating the claimed numeric `idx_a < idx_b`. -/
theorem dedup_idx_counterexample :
    emitted_dedup c6_pass [] c6_a c6_b ∧ ¬ (c6_a.idx < c6_b.idx) := by
  constructor
  · unfold emitted_dedup
    decide
  · decide

/-- Witness for the amended C6 at a concrete emitted pair. -/
theorem dedup_pair_exclusion_witness :
    Nat.repr c6w_a.idx < Nat.repr c6w_b.idx ∧ c6w_a.idx ≠ c6w_b.idx ∧
      c6w_a.indv_id ≠ c6w_b.indv_id :=
  dedup_pair_exclusion c6_pass [] c6w_a c6w_b (by unfold emitted_dedup; decide)

/-! ## Claim C4: the 121 equal-weight tie drops both candidates -/

/-- C4.  For a 121 resolution whose input consists of the two rows `(A, B)`
and `(A, C)` with equal weight (and no other row involving `A`, `B` or
`C`), `one_to_one_matching` leaves only a deleted entry for `A`, so the
crosswalk written by `write_to_csv` contains neither `(A, B)` nor `(A, C)`:
the contested id `A` ends up unmatched. -/
theorem one_to_one_tie_drops_both (A B C w p1 p2 : String)
    (hAB : A ≠ B) (hAC : A ≠ C) (hBC : B ≠ C) :
    one_to_one_matching
        [{ indv_id_a := A, indv_id_b := B, weight := w, passnum := p1 },
         { indv_id_a := A, indv_id_b := C, weight := w, passnum := p2 }] =
      some [(A, { partner := B, weight := w, deleted := true, passnum := p1 })] ∧
    write_to_csv_121
        [(A, { partner := B, weight := w, deleted := true, passnum := p1 })] = [] := by
  refine ⟨?_, rfl⟩
  simp [one_to_one_matching, one_to_one_go, one_to_one_step, dget_cons, dset,
    hAB, hAC, hBC, Ne.symm hAB, Ne.symm hAC, Ne.symm hBC]

/-- Witness for C4 at concrete ids. -/
theorem one_to_one_tie_drops_both_witness :
    one_to_one_matching
        [{ indv_id_a := "A", indv_id_b := "B", weight := "12.5", passnum := "1" },
         { indv_id_a := "A", indv_id_b := "C", weight := "12.5", passnum := "2" }] =
      some [("A", { partner := "B", weight := "12.5", deleted := true, passnum := "1" })] ∧
    write_to_csv_121
        [("A", { partner := "B", weight := "12.5", deleted := true, passnum := "1" })] = [] :=
  one_to_one_tie_drops_both "A" "B" "C" "12.5" "1" "2"
    (by decide) (by decide) (by decide)

/-! ## Claim C5: weight dominance of earlier passes -/

theorem clamp_score_bounds {r : MatchRow} (hv : ValidScores r) {s : Option ℚ}
    (hs : s ∈ r.scores) : 0 ≤ clamp_score s ∧ clamp_score s ≤ 1 := by
  cases s with
  | none => simp [clamp_score]
  | some x =>
    rcases hv _ hs x rfl with h1 | ⟨h0, h1⟩
    · subst h1
      norm_num [clamp_score]
    · have hne : x ≠ -1 := by
        intro hx
        rw [hx] at h0
        norm_num at h0
      simp [clamp_score, hne, h0, h1]

theorem bool_val_bounds (b : Bool) : 0 ≤ bool_val b ∧ bool_val b ≤ 1 := by
  cases b <;> norm_num [bool_val]

theorem weight_summands_nonneg {r : MatchRow} (hv : ValidScores r) :
    0 ≤ (weight_summands r).sum := by
  apply List.sum_nonneg
  intro x hx
  simp only [weight_summands, List.mem_append, List.mem_map] at hx
  rcases hx with ⟨s, hs, rfl⟩ | hx
  · exact (clamp_score_bounds hv hs).1
  · simp only [List.mem_cons, List.not_mem_nil, or_false] at hx
    rcases hx with rfl | rfl | rfl | rfl <;> exact (bool_val_bounds _).1

theorem weight_summands_le {r : MatchRow} (hv : ValidScores r)
    (hl : r.scores.length ≤ 10) : (weight_summands r).sum ≤ 14 := by
  have hscores : (r.scores.map clamp_score).sum ≤ 10 := by
    have hle := List.sum_le_card_nsmul (r.scores.map clamp_score) 1 ?_
    · rw [nsmul_eq_mul, mul_one, List.length_map] at hle
      have : ((r.scores.length : ℚ)) ≤ 10 := by exact_mod_cast hl
      linarith
    · intro x hx
      simp only [List.mem_map] at hx
      obtain ⟨s, hs, rfl⟩ := hx
      exact (clamp_score_bounds hv hs).2
  have hflags : bool_val r.match_strict + bool_val r.match_moderate +
      bool_val r.match_relaxed + bool_val r.match_review ≤ 4 := by
    have h1 := (bool_val_bounds r.match_strict).2
    have h2 := (bool_val_bounds r.match_moderate).2
    have h3 := (bool_val_bounds r.match_relaxed).2
    have h4 := (bool_val_bounds r.match_review).2
    linarith
  simp only [weight_summands, List.sum_append, List.sum_cons, List.sum_nil]
  linarith

/-- C5.  For any two accepted rows with pass numbers `p1 < p2` (both regular
passes, so `p2 < P`), each with at most 10 comparison scores (score cells
absent or in `[0,1] ∪ {-1}`), the weight of the `p1` row is strictly
greater than the weight of the `p2` row, whatever the score sums. -/
theorem weight_pass_dominance (P : Nat) (r1 r2 : MatchRow)
    (h12 : r1.passnum < r2.passnum) (h2P : r2.passnum < P)
    (hl1 : r1.scores.length ≤ 10) (hl2 : r2.scores.length ≤ 10)
    (hv1 : ValidScores r1) (hv2 : ValidScores r2) :
    calculate_weights P r2 < calculate_weights P r1 := by
  have hbase : (1 : ℤ) ≤ (P : ℤ) - (r2.passnum : ℤ) := by
    omega
  have hexp : (P : ℤ) - (r2.passnum : ℤ) + 1 ≤ (P : ℤ) - (r1.passnum : ℤ) := by
    omega
  have hten : (1 : ℚ) ≤ 10 := by norm_num
  have h1 : (10 : ℚ) ^ ((P : ℤ) - (r2.passnum : ℤ) + 1) ≤
      (10 : ℚ) ^ ((P : ℤ) - (r1.passnum : ℤ)) :=
    zpow_le_zpow_right₀ hten hexp
  have h2 : (10 : ℚ) ^ (1 : ℤ) ≤ (10 : ℚ) ^ ((P : ℤ) - (r2.passnum : ℤ)) :=
    zpow_le_zpow_right₀ hten hbase
  have h3 : (10 : ℚ) ^ ((P : ℤ) - (r2.passnum : ℤ) + 1) =
      (10 : ℚ) ^ ((P : ℤ) - (r2.passnum : ℤ)) * 10 := by
    rw [zpow_add_one₀ (by norm_num : (10 : ℚ) ≠ 0)]
  have hup := weight_summands_le hv2 hl2
  have hdown := weight_summands_nonneg hv1
  have h4 : (10 : ℚ) ^ (1 : ℤ) = 10 := by norm_num
  simp only [calculate_weights]
  nlinarith [h1, h2, h3, hup, hdown]

/-- Witness for C5 at concrete rows (pass 0 versus pass 1 of 2 passes). -/
theorem weight_pass_dominance_witness :
    calculate_weights 2 c5_row2 < calculate_weights 2 c5_row1 :=
  weight_pass_dominance 2 c5_row1 c5_row2 (by norm_num [c5_row1, c5_row2])
    (by norm_num [c5_row2]) (by simp [c5_row1]) (by simp [c5_row2])
    (by intro s hs x hx; simp [c5_row1] at hs)
    (by
      intro s hs x hx
      simp only [c5_row2, List.mem_cons, List.not_mem_nil, or_false] at hs
      rcases hs with rfl | rfl <;>
        · right
          injection hx with h1
          subst h1
          norm_num)

end RecordLinkage
